import Mathlib

/-
Shallow embedding of the OneMinute chat server core (app/server.js):
rooms, membership, the ephemeral message store with TTL, the rate
limiter, and the WebSocket command handlers, together with proofs about
them.

Conventions of the embedding:
* JavaScript Map objects are modelled as association lists
  (List (String × A)) with first-match lookup; Map.set replaces the
  first entry in place (preserving insertion order) or appends, and
  Map.delete removes the first entry, exactly as a Map with unique keys
  behaves.
* JavaScript Set objects of websocket handles are modelled as lists of
  connection ids without duplicates: Set.add appends when absent and is
  a no-op when present, Set.delete removes the occurrence.
* Date.now() values are modelled as Int (JS numbers are exact integers
  at these magnitudes, so Int arithmetic is faithful).  Each handler
  invocation reads a single now value.
* Entropy consumed by the code - Math.random().toString(36).substr(2, 9)
  draws, crypto.randomUUID() and crypto.randomBytes(6).toString(hex) -
  is passed to the embedded functions as explicit string parameters.
* ws.send and room broadcasts are modelled as an output event list; a
  broadcast event records the recipient list computed at emission time,
  exactly as broadcastToRoom reads room.members when it runs.  All
  connections held in the modelled state are open (readyState 1);
  handleClose removes a closed socket from the state.
* Omitted as irrelevant to the verified claims: console logging, visit
  statistics, the HTTP endpoints (upload, files, stats, health), and the
  ghost-socket cleanup at connection time (the model holds only open
  connections, so there are no ghosts).
-/

/-- First-match lookup in an association list, modelling JS Map.get
(returning none for undefined). -/
def alookup {α : Type} : List (String × α) → String → Option α
  | [], _ => none
  | (k, v) :: t, key => if k = key then some v else alookup t key

/-- Modelling JS Map.set: replace the first entry with this key in
place, else append at the end (Map preserves insertion order). -/
def aset {α : Type} : List (String × α) → String → α → List (String × α)
  | [], key, v => [(key, v)]
  | (k, w) :: t, key, v =>
      if k = key then (key, v) :: t else (k, w) :: aset t key v

/-- Modelling JS Map.delete: remove the first entry with this key. -/
def aerase {α : Type} : List (String × α) → String → List (String × α)
  | [], _ => []
  | (k, w) :: t, key => if k = key then t else (k, w) :: aerase t key

theorem alookup_aset_self {α : Type} (l : List (String × α)) (k : String) (v : α) :
    alookup (aset l k v) k = some v := by
  induction l with
  | nil => simp [aset, alookup]
  | cons h t ih =>
      obtain ⟨k', v'⟩ := h
      by_cases hk : k' = k
      · simp [aset, hk, alookup]
      · simp [aset, hk, alookup, ih]

theorem alookup_aset_ne {α : Type} (l : List (String × α)) (k k' : String) (v : α)
    (h : k' ≠ k) : alookup (aset l k v) k' = alookup l k' := by
  have h2 : k ≠ k' := Ne.symm h
  induction l with
  | nil => simp [aset, alookup, h2]
  | cons hd t ih =>
      obtain ⟨k0, v0⟩ := hd
      by_cases hk : k0 = k
      · subst hk
        simp [aset, alookup, h2]
      · by_cases hk' : k0 = k'
        · simp [aset, hk, alookup, hk', h]
        · simp [aset, hk, alookup, hk', ih]

theorem alookup_aerase_ne {α : Type} (l : List (String × α)) (k k' : String)
    (h : k' ≠ k) : alookup (aerase l k) k' = alookup l k' := by
  have h2 : k ≠ k' := Ne.symm h
  induction l with
  | nil => simp [aerase]
  | cons hd t ih =>
      obtain ⟨k0, v0⟩ := hd
      by_cases hk : k0 = k
      · subst hk
        simp [aerase, alookup, h2]
      · by_cases hk' : k0 = k'
        · simp [aerase, hk, alookup, hk', h]
        · simp [aerase, hk, alookup, hk', ih]

theorem alookup_eq_none_of_not_mem {α : Type} (l : List (String × α)) (k : String)
    (h : k ∉ l.map Prod.fst) : alookup l k = none := by
  induction l with
  | nil => rfl
  | cons hd t ih =>
      obtain ⟨k0, v0⟩ := hd
      simp only [List.map_cons, List.mem_cons, not_or] at h
      simp only [alookup]
      rw [if_neg (Ne.symm h.1)]
      exact ih h.2

theorem alookup_aerase_self {α : Type} (l : List (String × α)) (k : String)
    (h : (l.map Prod.fst).Nodup) : alookup (aerase l k) k = none := by
  induction l with
  | nil => rfl
  | cons hd t ih =>
      obtain ⟨k0, v0⟩ := hd
      simp only [List.map_cons, List.nodup_cons] at h
      by_cases hk : k0 = k
      · subst hk
        simp only [aerase, if_pos rfl]
        exact alookup_eq_none_of_not_mem t k0 h.1
      · simp only [aerase, if_neg hk, alookup, if_neg hk]
        exact ih h.2

theorem aset_map_fst {α : Type} (l : List (String × α)) (k : String) (v : α) :
    (aset l k v).map Prod.fst =
      if k ∈ l.map Prod.fst then l.map Prod.fst else l.map Prod.fst ++ [k] := by
  induction l with
  | nil => simp [aset]
  | cons hd t ih =>
      obtain ⟨k0, v0⟩ := hd
      by_cases hk : k0 = k
      · subst hk
        simp [aset]
      · have hk2 : k ≠ k0 := fun hh => hk hh.symm
        simp only [aset, if_neg hk, List.map_cons, ih]
        by_cases hmem : k ∈ t.map Prod.fst
        · simp [List.mem_cons, hmem, hk2]
        · simp [List.mem_cons, hmem, hk2]

theorem aset_map_fst_nodup {α : Type} (l : List (String × α)) (k : String) (v : α)
    (h : (l.map Prod.fst).Nodup) : ((aset l k v).map Prod.fst).Nodup := by
  rw [aset_map_fst]
  by_cases hmem : k ∈ l.map Prod.fst
  · simpa [hmem] using h
  · rw [if_neg hmem]
    refine List.Nodup.append h (List.nodup_singleton k) ?_
    intro a ha hb
    rw [List.mem_singleton] at hb
    exact hmem (hb ▸ ha)

theorem aerase_map_fst_sublist {α : Type} (l : List (String × α)) (k : String) :
    ((aerase l k).map Prod.fst).Sublist (l.map Prod.fst) := by
  induction l with
  | nil => simp [aerase]
  | cons hd t ih =>
      obtain ⟨k0, v0⟩ := hd
      by_cases hk : k0 = k
      · simp only [aerase, if_pos hk, List.map_cons]
        exact (List.Sublist.refl _).cons _
      · simp only [aerase, if_neg hk, List.map_cons]
        exact ih.cons₂ _

theorem aerase_map_fst_nodup {α : Type} (l : List (String × α)) (k : String)
    (h : (l.map Prod.fst).Nodup) : ((aerase l k).map Prod.fst).Nodup :=
  h.sublist (aerase_map_fst_sublist l k)

-- Constants from server.js.

/-- MESSAGE_TTL = 10 * 60 * 1000 (10 minutes in milliseconds). -/
def MESSAGE_TTL : Int := 10 * 60 * 1000

/-- RATE_LIMIT_WINDOW = 3000 (3 seconds for messages). -/
def RATE_LIMIT_WINDOW : Int := 3000

/-- checkRateLimit(identifier, window): JS reads the stored last time,
returns false when it is truthy (nonzero) and within the window, else
records now and returns true.  Returns the decision and the updated
rateLimits map. -/
def checkRateLimit (rateLimits : List (String × Int)) (identifier : String)
    (window : Int) (now : Int) : Bool × List (String × Int) :=
  match alookup rateLimits identifier with
  | some lastTime =>
      if lastTime ≠ 0 ∧ now - lastTime < window then (false, rateLimits)
      else (true, aset rateLimits identifier now)
  | none => (true, aset rateLimits identifier now)

/-- C3 counterexample: the claim quantifies over all times t1 < t2, but a
first call recorded at time 0 is treated as absent by the JS truthiness
test `if (lastTime && ...)`, so a second call 1 ms later is allowed even
though 1 - 0 < 3000; the claim demands it be rejected. -/
theorem c3_counterexample :
    (checkRateLimit [] "k" RATE_LIMIT_WINDOW 0).1 = true ∧
    (checkRateLimit (checkRateLimit [] "k" RATE_LIMIT_WINDOW 0).2 "k"
        RATE_LIMIT_WINDOW 1).1 = true ∧
    (1 : Int) - 0 < RATE_LIMIT_WINDOW := by
  refine ⟨rfl, ?_, by decide⟩
  rfl

/-- C3 (amended): for every key k, window w and nonzero time t1 < t2, the
first-ever allow call returns true and records t1; the second call
returns true iff t2 - t1 >= w; the recorded time is updated only by
calls that return true (a rejected call leaves the map unchanged, an
accepted one stores its time). -/
theorem c3_rate_limiter (rl : List (String × Int)) (k : String) (w t1 t2 : Int)
    (hfresh : alookup rl k = none) (h0 : t1 ≠ 0) (h12 : t1 < t2) :
    (checkRateLimit rl k w t1).1 = true ∧
    alookup (checkRateLimit rl k w t1).2 k = some t1 ∧
    ((checkRateLimit (checkRateLimit rl k w t1).2 k w t2).1 = true ↔ w ≤ t2 - t1) ∧
    ((checkRateLimit (checkRateLimit rl k w t1).2 k w t2).1 = false →
      (checkRateLimit (checkRateLimit rl k w t1).2 k w t2).2 =
        (checkRateLimit rl k w t1).2) ∧
    ((checkRateLimit (checkRateLimit rl k w t1).2 k w t2).1 = true →
      alookup (checkRateLimit (checkRateLimit rl k w t1).2 k w t2).2 k = some t2) := by
  have h1 : checkRateLimit rl k w t1 = (true, aset rl k t1) := by
    simp [checkRateLimit, hfresh]
  rw [h1]
  have hl : alookup (aset rl k t1) k = some t1 := alookup_aset_self rl k t1
  refine ⟨rfl, hl, ?_⟩
  by_cases hw : t2 - t1 < w
  · have h2 : checkRateLimit (aset rl k t1) k w t2 = (false, aset rl k t1) := by
      simp [checkRateLimit, hl, h0, hw]
    rw [h2]
    refine ⟨?_, fun _ => rfl, fun hc => by simp at hc⟩
    constructor
    · intro hc; simp at hc
    · intro hc; omega
  · have h2 : checkRateLimit (aset rl k t1) k w t2 = (true, aset (aset rl k t1) k t2) := by
      simp only [checkRateLimit, hl]
      rw [if_neg (by push_neg; intro _; omega)]
    rw [h2]
    refine ⟨?_, fun hc => by simp at hc, fun _ => alookup_aset_self _ _ _⟩
    constructor
    · intro _; omega
    · intro _; rfl

/-- Witness for c3_rate_limiter at rl = [], k = "k", w = 3000, t1 = 1000,
t2 = 1500 (second call rejected since 500 < 3000). -/
theorem c3_witness :
    alookup ([] : List (String × Int)) "k" = none ∧ (1000 : Int) ≠ 0 ∧
    (1000 : Int) < 1500 ∧
    (checkRateLimit [] "k" 3000 1000).1 = true ∧
    alookup (checkRateLimit [] "k" 3000 1000).2 "k" = some 1000 ∧
    (checkRateLimit (checkRateLimit [] "k" 3000 1000).2 "k" 3000 1500).1 = false := by
  have h := c3_rate_limiter [] "k" 3000 1000 1500 rfl (by decide) (by decide)
  refine ⟨rfl, by decide, by decide, h.1, h.2.1, ?_⟩
  rfl

-- Data model (server.js state).

/-- A chat message as stored in room.messages.  Fields the code leaves
absent (fileUrl and fileName on system messages, isSystem on user
messages) are modelled as none and false. -/
structure Message where
  id : String
  text : String
  timestamp : Int
  fileUrl : Option String
  fileName : Option String
  sender : String
  senderId : String
  isSystem : Bool
deriving DecidableEq

/-- A room: the global room is created without a key (none); private
rooms carry some key.  Members are connection ids. -/
structure Room where
  id : String
  key : Option String
  isPrivate : Bool
  members : List String
  messages : List Message
deriving DecidableEq

/-- The per-connection ws.user record.  Its id is the connection id. -/
structure User where
  id : String
  anonName : String
  currentRoom : String
  roomNames : List (String × String)
deriving DecidableEq

/-- The mutable server state: open connections keyed by ws.user.id, the
rooms map, and the rateLimits map. -/
structure ServerState where
  conns : List (String × User)
  rooms : List (String × Room)
  rateLimits : List (String × Int)
deriving DecidableEq

/-- An entry of getActiveMessages: the message spread together with the
added remainingTime annotation. -/
structure VisMessage where
  msg : Message
  remainingTime : Int
deriving DecidableEq

/-- Server-to-client envelopes of the broadcast protocol. -/
inductive Envelope where
  | identity (userId anonName : String)
  | init (roomId : String) (messages : List VisMessage) (username : String)
  | newMessage (message : Message)
  | roomCreated (roomId roomKey username : String)
  | roomUsers (roomId : String) (count : Nat)
  | roomUserList (users : List (String × Option String))
  | error (message : String)
  | pong
deriving DecidableEq

/-- One delivery action of the handlers: ws.send to a single connection,
or a room broadcast.  A broadcast records the recipient list that
broadcastToRoom reads from room.members at emission time (all modelled
connections have readyState 1). -/
inductive OutEvent where
  | send (connId : String) (env : Envelope)
  | broadcast (roomId : String) (recipients : List String) (env : Envelope)
deriving DecidableEq

-- Operations (server.js functions).

/-- broadcastToRoom(roomId, data): nothing when the room is missing,
else one broadcast to the current members. -/
def broadcastToRoom (st : ServerState) (roomId : String) (env : Envelope) :
    List OutEvent :=
  match alookup st.rooms roomId with
  | none => []
  | some room => [OutEvent.broadcast roomId room.members env]

/-- broadcastUserCount(roomId): room_users envelope carrying
room.members.size. -/
def broadcastUserCount (st : ServerState) (roomId : String) : List OutEvent :=
  match alookup st.rooms roomId with
  | none => []
  | some room =>
      broadcastToRoom st roomId (Envelope.roomUsers roomId room.members.length)

/-- The body of getRoomUsers over a given member list: ids and per-room
display names (the anonName in global, else the roomNames entry,
possibly undefined).  The missing-connection branch is unreachable
because every member websocket carries ws.user. -/
def roomUserEntries (conns : List (String × User)) (rid : String)
    (room : Room) : List (String × Option String) :=
  room.members.map fun mid =>
    match alookup conns mid with
    | some mu =>
        (mu.id, if rid = "global" then some mu.anonName
                else alookup mu.roomNames rid)
    | none => (mid, none)

/-- getRoomUsers(roomId). -/
def getRoomUsers (st : ServerState) (roomId : String) :
    List (String × Option String) :=
  match alookup st.rooms roomId with
  | none => []
  | some room => roomUserEntries st.conns roomId room

/-- broadcastUserList(roomId). -/
def broadcastUserList (st : ServerState) (roomId : String) : List OutEvent :=
  match alookup st.rooms roomId with
  | none => []
  | some _ =>
      broadcastToRoom st roomId (Envelope.roomUserList (getRoomUsers st roomId))

/-- The message object systemMessage builds: id sys_<Date.now()>_<draw>,
sender System, senderId system, isSystem true. -/
def sysMsgOf (text : String) (now : Int) (rand : String) : Message :=
  ⟨"sys_" ++ toString now ++ "_" ++ rand, text, now, none, none,
    "System", "system", true⟩

/-- systemMessage(roomId, text): build the system message, push it to
the room log and broadcast it as new_message. -/
def systemMessage (st : ServerState) (roomId text : String) (now : Int)
    (rand : String) : ServerState × List OutEvent :=
  let msg : Message := sysMsgOf text now rand
  match alookup st.rooms roomId with
  | none => (st, [])
  | some room =>
      let room2 : Room := ⟨room.id, room.key, room.isPrivate, room.members,
        room.messages ++ [msg]⟩
      let st2 : ServerState :=
        ⟨st.conns, aset st.rooms roomId room2, st.rateLimits⟩
      (st2, broadcastToRoom st2 roomId (Envelope.newMessage msg))

/-- getActiveMessages(roomId): the room log filtered to messages with
now - timestamp <= MESSAGE_TTL, each annotated with remainingTime =
MESSAGE_TTL - (now - timestamp). -/
def getActiveMessages (st : ServerState) (roomId : String) (now : Int) :
    List VisMessage :=
  match alookup st.rooms roomId with
  | none => []
  | some room =>
      (room.messages.filter fun msg =>
          decide (now - msg.timestamp ≤ MESSAGE_TTL)).map
        fun msg => ⟨msg, MESSAGE_TTL - (now - msg.timestamp)⟩

/-- leaveRoom(ws): look up the room recorded as ws.user.currentRoom; if
present, delete the member, emit a leave notice when members remain,
then broadcast the updated count and list.  ws.user is not modified. -/
def leaveRoom (st : ServerState) (cid : String) (now : Int) (rand : String) :
    ServerState × List OutEvent :=
  match alookup st.conns cid with
  | none => (st, [])
  | some u =>
      match alookup st.rooms u.currentRoom with
      | none => (st, [])
      | some room =>
          let username :=
            if u.currentRoom = "global" then u.anonName
            else (alookup u.roomNames u.currentRoom).getD "Guest"
          let room2 : Room := ⟨room.id, room.key, room.isPrivate,
            room.members.erase cid, room.messages⟩
          let st2 : ServerState :=
            ⟨st.conns, aset st.rooms u.currentRoom room2, st.rateLimits⟩
          let stev :=
            if room2.members.length > 0 then
              systemMessage st2 room.id (username ++ " left the room") now rand
            else (st2, [])
          (stev.1, stev.2 ++ broadcastUserCount stev.1 room.id ++
            broadcastUserList stev.1 room.id)

/-- joinRoom(ws, roomId): leaveRoom first, set ws.user.currentRoom, then
(when the target room exists) add the member, broadcast the count and
list, emit a join notice and send the requester the init snapshot. -/
def joinRoom (st : ServerState) (cid roomId : String) (now : Int)
    (randLeave randJoin : String) : ServerState × List OutEvent :=
  match alookup st.conns cid with
  | none => (st, [])
  | some _ =>
      let stev1 := leaveRoom st cid now randLeave
      match alookup stev1.1.conns cid with
      | none => (stev1.1, stev1.2)
      | some u1 =>
          let u2 : User := ⟨u1.id, u1.anonName, roomId, u1.roomNames⟩
          let st2 : ServerState :=
            ⟨aset stev1.1.conns cid u2, stev1.1.rooms, stev1.1.rateLimits⟩
          match alookup st2.rooms roomId with
          | none => (st2, stev1.2)
          | some room =>
              let room2 : Room := ⟨room.id, room.key, room.isPrivate,
                (if cid ∈ room.members then room.members
                 else room.members ++ [cid]), room.messages⟩
              let st3 : ServerState :=
                ⟨st2.conns, aset st2.rooms roomId room2, st2.rateLimits⟩
              let evsCount := broadcastUserCount st3 roomId
              let evsList := broadcastUserList st3 roomId
              let username :=
                if roomId = "global" then u2.anonName
                else (alookup u2.roomNames roomId).getD "Guest"
              let stev4 :=
                systemMessage st3 roomId (username ++ " joined the room")
                  now randJoin
              (stev4.1, stev1.2 ++ evsCount ++ evsList ++ stev4.2 ++
                [OutEvent.send cid (Envelope.init roomId
                  (getActiveMessages stev4.1 roomId now) username)])

/-- The room part of one tick of the 30 s cleanup interval: keep exactly
the messages with now - timestamp <= MESSAGE_TTL. -/
def sweepRoom (now : Int) (r : Room) : Room :=
  ⟨r.id, r.key, r.isPrivate, r.members,
    r.messages.filter fun msg => decide (now - msg.timestamp ≤ MESSAGE_TTL)⟩

/-- The cleanup interval body restricted to rooms (the files map and the
observability counters are outside the modelled state). -/
def sweepState (st : ServerState) (now : Int) : ServerState :=
  ⟨st.conns, st.rooms.map fun kv => (kv.1, sweepRoom now kv.2),
    st.rateLimits⟩

theorem alookup_map_value {α β : Type} (l : List (String × α))
    (f : String → α → β) (k : String) :
    alookup (l.map fun kv => (kv.1, f kv.1 kv.2)) k =
      (alookup l k).map (f k) := by
  induction l with
  | nil => rfl
  | cons hd t ih =>
      obtain ⟨k0, v0⟩ := hd
      by_cases hk : k0 = k
      · subst hk
        simp [alookup]
      · simp [alookup, hk, ih]

/-- C2: for every room, getActiveMessages returns exactly the messages
with now - createdAt <= TTL, each annotated with remainingTime =
TTL - (now - createdAt), and preserves ascending createdAt order (the
log is kept in arrival order, so its timestamps are nondecreasing);
once strictly past the TTL, a sweep removes a message permanently: it
is absent from the swept store and from every later snapshot. -/
theorem c2_visible_ttl_sweep (st : ServerState) (rid : String) (room : Room)
    (now : Int) (hroom : alookup st.rooms rid = some room) :
    (∀ vm : VisMessage, vm ∈ getActiveMessages st rid now ↔
        vm.msg ∈ room.messages ∧ now - vm.msg.timestamp ≤ MESSAGE_TTL ∧
          vm.remainingTime = MESSAGE_TTL - (now - vm.msg.timestamp)) ∧
    ((room.messages.map Message.timestamp).Pairwise (· ≤ ·) →
      (((getActiveMessages st rid now).map fun vm => vm.msg.timestamp).Pairwise
        (· ≤ ·))) ∧
    (∀ m : Message, m ∈ room.messages → MESSAGE_TTL < now - m.timestamp →
      (∀ room2 : Room, alookup (sweepState st now).rooms rid = some room2 →
          m ∉ room2.messages) ∧
      (∀ now2 : Int, now ≤ now2 → ∀ vm : VisMessage,
          vm ∈ getActiveMessages (sweepState st now) rid now2 →
            vm.msg ≠ m)) := by
  have hsw : alookup (sweepState st now).rooms rid =
      some (sweepRoom now room) := by
    show alookup (st.rooms.map fun kv => (kv.1, sweepRoom now kv.2)) rid = _
    rw [alookup_map_value st.rooms (fun _ r => sweepRoom now r) rid, hroom]
    rfl
  refine ⟨?_, ?_, ?_⟩
  · intro vm
    simp only [getActiveMessages, hroom, List.mem_map, List.mem_filter,
      decide_eq_true_eq]
    constructor
    · rintro ⟨a, ⟨ha, hle⟩, rfl⟩
      exact ⟨ha, hle, rfl⟩
    · rintro ⟨hmem, hle, hrem⟩
      refine ⟨vm.msg, ⟨hmem, hle⟩, ?_⟩
      obtain ⟨m, r⟩ := vm
      simp only at hrem ⊢
      rw [hrem]
  · intro hsorted
    simp only [getActiveMessages, hroom, List.map_map]
    have h1 : room.messages.Pairwise
        (fun a b => a.timestamp ≤ b.timestamp) :=
      (List.pairwise_map).mp hsorted
    have h2 : (room.messages.filter fun msg =>
        decide (now - msg.timestamp ≤ MESSAGE_TTL)).Pairwise
        (fun a b => a.timestamp ≤ b.timestamp) :=
      h1.sublist (List.filter_sublist _)
    exact (List.pairwise_map).mpr h2
  · intro m hm hpast
    constructor
    · intro room2 h2
      rw [hsw] at h2
      have hr2 : room2 = sweepRoom now room := (Option.some.inj h2).symm
      subst hr2
      intro hmem
      simp only [sweepRoom] at hmem
      rcases List.mem_filter.mp hmem with ⟨_, hdec⟩
      rw [decide_eq_true_eq] at hdec
      omega
    · intro now2 _ vm hvm heq
      simp only [getActiveMessages, hsw, sweepRoom, List.mem_map,
        List.mem_filter, decide_eq_true_eq] at hvm
      rcases hvm with ⟨a, ⟨⟨_, hq⟩, _⟩, rfl⟩
      simp only at heq
      rw [heq] at hq
      omega

/-- Concrete sample for the c2 witness: one user message sent at time 0
in the global room, viewed at time 1000. -/
def c2msg : Message :=
  ⟨"msg_0_aaaaaaaaa", "hi", 0, none, none, "BlueFox#101", "u1", false⟩

def c2room : Room := ⟨"global", none, false, ["u1"], [c2msg]⟩

def c2st : ServerState :=
  ⟨[("u1", ⟨"u1", "BlueFox#101", "global", []⟩)], [("global", c2room)], []⟩

/-- Witness for c2_visible_ttl_sweep: at time 1000 the sample message is
visible with remainingTime 599000 ms. -/
theorem c2_witness :
    alookup c2st.rooms "global" = some c2room ∧
    ((⟨c2msg, 599000⟩ : VisMessage) ∈ getActiveMessages c2st "global" 1000 ↔
      c2msg ∈ c2room.messages ∧ (1000 : Int) - c2msg.timestamp ≤ MESSAGE_TTL ∧
        (599000 : Int) = MESSAGE_TTL - ((1000 : Int) - c2msg.timestamp)) :=
  ⟨rfl, (c2_visible_ttl_sweep c2st "global" c2room 1000 rfl).1 ⟨c2msg, 599000⟩⟩

/-- JS String.prototype.trim: strip leading and trailing whitespace.
(JS trims the full Unicode whitespace set; the model covers the ASCII
whitespace characters, which is all the server compares against.) -/
def jsWhitespace (c : Char) : Bool :=
  c == ' ' || c == '\t' || c == '\n' || c == '\r'

def jsTrim (s : String) : String :=
  String.mk (((s.data.dropWhile jsWhitespace).reverse.dropWhile
    jsWhitespace).reverse)

-- Inbound frames and the command dispatch.

/-- The fields of a parsed inbound frame that the dispatch in
ws.on(message) reads; absent JSON properties are none.  (Frames whose
properties hold non-string values make the handler throw into its catch
block; they are outside the modelled frame shapes.) -/
structure RawMsg where
  tag : String
  text : Option String
  fileUrl : Option String
  fileName : Option String
  username : Option String
  roomId : Option String
  roomKey : Option String
deriving DecidableEq

/-- An inbound frame: either JSON.parse throws (malformed), or it yields
an object whose type property is the tag. -/
inductive Inbound where
  | malformed
  | frame (m : RawMsg)
deriving DecidableEq

/-- JS `x || null` on an optional string: the empty string is falsy and
collapses to null. -/
def orNull (o : Option String) : Option String :=
  match o with
  | some s => if s = "" then none else some s
  | none => none

/-- JS `parsed.username?.trim() || default`: an absent name or one that
trims to empty falls back to the default ("Host" for create_room,
"Guest" for join_room). -/
def resolveName (dflt : String) (o : Option String) : String :=
  match o with
  | none => dflt
  | some s => if jsTrim s = "" then dflt else jsTrim s

/-- The duplicate-name check of join_room: some member already holds
this display name in this room. -/
def isDuplicateName (conns : List (String × User)) (room : Room)
    (rid uname : String) : Bool :=
  room.members.any fun mid =>
    match alookup conns mid with
    | some mu => alookup mu.roomNames rid == some uname
    | none => false

/-- The ws.on(message) handler.  The source tests parsed.type against
each command tag in sequence; the tags are mutually exclusive, so the
chain is a dispatch.  A frame with an unrecognized tag matches no branch
and falls through to the end of the try block.  Entropy and Date.now()
are explicit parameters: randMsg is the Math.random draw for a user
message id, randLeave and randJoin the draws for the system notices
inside joinRoom, newRoomId the crypto.randomUUID() and newRoomKey the
crypto.randomBytes hex for create_room. -/
def handleFrame (st : ServerState) (cid : String) (inb : Inbound) (now : Int)
    (randMsg randLeave randJoin newRoomId newRoomKey : String) :
    ServerState × List OutEvent :=
  match inb with
  | Inbound.malformed =>
      (st, [OutEvent.send cid (Envelope.error "Invalid message format")])
  | Inbound.frame m =>
      if m.tag = "ping" then (st, [OutEvent.send cid Envelope.pong])
      else if m.tag = "message" then
        match alookup st.conns cid with
        | none => (st, [])
        | some u =>
            let rlres := checkRateLimit st.rateLimits u.id RATE_LIMIT_WINDOW now
            if rlres.1 = false then
              (st, [OutEvent.send cid (Envelope.error "Slow down.")])
            else
              let st1 : ServerState := ⟨st.conns, st.rooms, rlres.2⟩
              let text := m.text.map jsTrim
              let textOk : Bool := match text with
                | some s => s != ""
                | none => false
              let fileUrl := orNull m.fileUrl
              let fileName := orNull m.fileName
              if !textOk && fileUrl.isNone then
                (st1, [OutEvent.send cid (Envelope.error "Message cannot be empty")])
              else
                let message : Message :=
                  ⟨"msg_" ++ toString now ++ "_" ++ randMsg,
                    text.getD "", now, fileUrl, fileName,
                    (if u.currentRoom = "global" then u.anonName
                     else (alookup u.roomNames u.currentRoom).getD "Guest"),
                    u.id, false⟩
                match alookup st1.rooms u.currentRoom with
                | none => (st1, [])
                | some room =>
                    let room2 : Room := ⟨room.id, room.key, room.isPrivate,
                      room.members, room.messages ++ [message]⟩
                    let st2 : ServerState :=
                      ⟨st1.conns, aset st1.rooms u.currentRoom room2,
                        st1.rateLimits⟩
                    (st2, broadcastToRoom st2 u.currentRoom
                      (Envelope.newMessage message))
      else if m.tag = "create_room" then
        let roomId := newRoomId
        let roomKey := newRoomKey
        let rooms1 := aset st.rooms roomId ⟨roomId, some roomKey, true, [], []⟩
        let username := resolveName "Host" m.username
        if username.length = 0 ∨ username.length > 20 then
          (⟨st.conns, rooms1, st.rateLimits⟩,
            [OutEvent.send cid
              (Envelope.error "Username must be between 1 and 20 characters")])
        else
          match alookup st.conns cid with
          | none => (⟨st.conns, rooms1, st.rateLimits⟩, [])
          | some u =>
              let u1 : User := ⟨u.id, u.anonName, u.currentRoom,
                aset u.roomNames roomId username⟩
              let st1 : ServerState :=
                ⟨aset st.conns cid u1, rooms1, st.rateLimits⟩
              let stev := joinRoom st1 cid roomId now randLeave randJoin
              (stev.1, stev.2 ++ [OutEvent.send cid
                (Envelope.roomCreated roomId roomKey username)])
      else if m.tag = "join_room" then
        let roomOpt := m.roomId.bind (alookup st.rooms)
        let reject : Bool := match roomOpt with
          | none => true
          | some room => room.isPrivate && room.key != m.roomKey
        if reject then
          (st, [OutEvent.send cid (Envelope.error "Invalid room or key")])
        else
          match roomOpt, m.roomId with
          | some room, some roomId =>
              let username := resolveName "Guest" m.username
              if username.length = 0 ∨ username.length > 20 then
                (st, [OutEvent.send cid
                  (Envelope.error "Username must be between 1 and 20 characters")])
              else if isDuplicateName st.conns room roomId username then
                (st, [OutEvent.send cid (Envelope.error
                  ("Username \"" ++ username ++ "\" is already taken in this room"))])
              else
                match alookup st.conns cid with
                | none => (st, [])
                | some u =>
                    let u1 : User := ⟨u.id, u.anonName, u.currentRoom,
                      aset u.roomNames roomId username⟩
                    let st1 : ServerState :=
                      ⟨aset st.conns cid u1, st.rooms, st.rateLimits⟩
                    joinRoom st1 cid roomId now randLeave randJoin
          | _, _ => (st, [])
      else if m.tag = "leave_room" then
        joinRoom st cid "global" now randLeave randJoin
      else (st, [])

/-- The wss connection handler: create ws.user, send the identity
envelope and join the global room.  Visit statistics, logging and the
ghost-socket cleanup are not modelled (the modelled state holds only
open sockets).  cid is the fresh crypto.randomUUID(). -/
def handleConnect (st : ServerState) (cid anonName : String) (now : Int)
    (randLeave randJoin : String) : ServerState × List OutEvent :=
  let u : User := ⟨cid, anonName, "global", []⟩
  let st1 : ServerState := ⟨aset st.conns cid u, st.rooms, st.rateLimits⟩
  let stev := joinRoom st1 cid "global" now randLeave randJoin
  (stev.1, OutEvent.send cid (Envelope.identity cid anonName) :: stev.2)

/-- The per-room body of the ws close handler loop: remove the closing
socket from every room that contains it and broadcast the updated count
and list for that room.  The code broadcasts via rooms.get(room.id) on
the mutated room object; every rooms.set in the source stores a room
under its own id, so the mutated member list is read back. -/
def closeRooms (conns : List (String × User)) (cid : String) :
    List (String × Room) → List (String × Room) × List OutEvent
  | [] => ([], [])
  | (rid, room) :: t =>
      let rest := closeRooms conns cid t
      if cid ∈ room.members then
        let room2 : Room := ⟨room.id, room.key, room.isPrivate,
          room.members.erase cid, room.messages⟩
        ((rid, room2) :: rest.1,
          OutEvent.broadcast room.id room2.members
              (Envelope.roomUsers room.id room2.members.length) ::
            OutEvent.broadcast room.id room2.members
              (Envelope.roomUserList (roomUserEntries conns room.id room2)) ::
            rest.2)
      else ((rid, room) :: rest.1, rest.2)

/-- The ws close handler: capture ws.user.currentRoom, remove the socket
from every room (broadcasting updates for each), delete its rate-limit
entry, auto-destroy its current room when that room is private and now
empty, and drop the connection record (the socket is gone). -/
def handleClose (st : ServerState) (cid : String) :
    ServerState × List OutEvent :=
  match alookup st.conns cid with
  | none => (st, [])
  | some u =>
      let res := closeRooms st.conns cid st.rooms
      let rl1 := aerase st.rateLimits u.id
      let rooms2 := match alookup res.1 u.currentRoom with
        | some r => if r.isPrivate && r.members.isEmpty
                    then aerase res.1 u.currentRoom else res.1
        | none => res.1
      (⟨aerase st.conns cid, rooms2, rl1⟩, res.2)

-- C4: malformed and unrecognized inbound frames.

/-- C4 counterexample: a well-formed frame with the unrecognized tag
"bogus" matches none of the dispatch branches and falls through the try
block: no envelope is sent and the state is unchanged, whereas the
claim demands an error envelope for every unrecognized tag (never a
silent no-op). -/
theorem c4_counterexample :
    handleFrame c2st "u1"
        (Inbound.frame ⟨"bogus", none, none, none, none, none, none⟩)
        1000 "r1" "r2" "r3" "n1" "n2" = (c2st, []) := rfl

/-- C4 (amended): a malformed frame (JSON.parse failure) yields exactly
one error envelope to the sender, with no state change and no
disconnect; a well-formed frame with an unrecognized type tag mutates
nothing, sends nothing and does not disconnect (a silent no-op). -/
theorem c4_malformed_and_unknown (st : ServerState) (cid : String) (now : Int)
    (r1 r2 r3 n1 n2 : String) (m : RawMsg)
    (htag : m.tag ∉ (["ping", "message", "create_room", "join_room",
      "leave_room"] : List String)) :
    handleFrame st cid Inbound.malformed now r1 r2 r3 n1 n2 =
      (st, [OutEvent.send cid (Envelope.error "Invalid message format")]) ∧
    handleFrame st cid (Inbound.frame m) now r1 r2 r3 n1 n2 = (st, []) := by
  constructor
  · rfl
  · simp only [List.mem_cons, not_or, List.not_mem_nil, and_true] at htag
    simp [handleFrame, htag.1, htag.2.1, htag.2.2.1, htag.2.2.2.1,
      htag.2.2.2.2]

/-- Witness for c4_malformed_and_unknown with tag "typo". -/
theorem c4_witness :
    (("typo" : String) ∉ (["ping", "message", "create_room", "join_room",
      "leave_room"] : List String)) ∧
    handleFrame c2st "u1" Inbound.malformed 1000 "r1" "r2" "r3" "n1" "n2" =
      (c2st, [OutEvent.send "u1" (Envelope.error "Invalid message format")]) ∧
    handleFrame c2st "u1"
        (Inbound.frame ⟨"typo", none, none, none, none, none, none⟩)
        1000 "r1" "r2" "r3" "n1" "n2" = (c2st, []) :=
  ⟨by decide,
    c4_malformed_and_unknown c2st "u1" 1000 "r1" "r2" "r3" "n1" "n2"
      ⟨"typo", none, none, none, none, none, none⟩ (by decide)⟩

-- C5: create_room creates the room before validating the name.

def c5st : ServerState :=
  ⟨[("alice", ⟨"alice", "QuickOwl#200", "global", []⟩)],
   [("global", ⟨"global", none, false, ["alice"], []⟩)], []⟩

/-- C5: the create_room handler inserts the new private room into the
registry before validating the display name.  With a 21-character name
the handler reports the validation error, yet the freshly created room
is still present in the registry afterwards (empty, unreachable by any
client, never cleaned up), so the state does change. -/
theorem c5_room_leak :
    (handleFrame c5st "alice"
        (Inbound.frame ⟨"create_room", none, none, none,
          some "aaaaaaaaaaaaaaaaaaaaa", none, none⟩)
        1000 "r1" "r2" "r3" "room-77" "key-77").2 =
      [OutEvent.send "alice"
        (Envelope.error "Username must be between 1 and 20 characters")] ∧
    alookup (handleFrame c5st "alice"
        (Inbound.frame ⟨"create_room", none, none, none,
          some "aaaaaaaaaaaaaaaaaaaaa", none, none⟩)
        1000 "r1" "r2" "r3" "room-77" "key-77").1.rooms "room-77" =
      some ⟨"room-77", some "key-77", true, [], []⟩ := ⟨rfl, rfl⟩

-- C8: message ids are timestamp plus a random draw, with no counter.

def c8st : ServerState :=
  ⟨[("alice", ⟨"alice", "ColdFox#300", "global", []⟩),
    ("bob", ⟨"bob", "DarkOwl#400", "global", []⟩)],
   [("global", ⟨"global", none, false, ["alice", "bob"], []⟩)], []⟩

def c8st1 : ServerState :=
  (handleFrame c8st "alice"
    (Inbound.frame ⟨"message", some "hi", none, none, none, none, none⟩)
    1000 "abcdefghi" "x" "x" "n1" "n2").1

def c8st2 : ServerState :=
  (handleFrame c8st1 "bob"
    (Inbound.frame ⟨"message", some "yo", none, none, none, none, none⟩)
    1000 "abcdefghi" "x" "x" "n1" "n2").1

/-- C8: two distinct accepted sends (different senders and texts) in the
same millisecond whose Math.random draws coincide both get the id
msg_1000_abcdefghi - the generator has no per-process counter, so id
uniqueness fails on these inputs, against the claim (and the spec
requirement of collision-freedom across rapid concurrent sends). -/
theorem c8_id_collision :
    (alookup c8st2.rooms "global").map (fun room => room.messages.map Message.id) =
      some ["msg_1000_abcdefghi", "msg_1000_abcdefghi"] ∧
    (alookup c8st2.rooms "global").map
        (fun room => room.messages.map Message.senderId) =
      some ["alice", "bob"] := ⟨rfl, rfl⟩

-- C1: deletion of emptied private rooms.

def c1st : ServerState :=
  ⟨[("amy", ⟨"amy", "SilentWolf#500", "r1", [("r1", "Amy")]⟩),
    ("ben", ⟨"ben", "HiddenShark#600", "global", []⟩)],
   [("global", ⟨"global", none, false, ["ben"], []⟩),
    ("r1", ⟨"r1", some "secret1", true, ["amy"], []⟩)], []⟩

def c1st1 : ServerState :=
  (handleFrame c1st "amy"
    (Inbound.frame ⟨"leave_room", none, none, none, none, none, none⟩)
    2000 "x" "rA" "rB" "n1" "n2").1

/-- C1 counterexample: amy is the only member of the private room r1 and
leaves it via the leave_room command.  Afterwards r1 is still in the
registry (the leave path never deletes rooms), and a subsequent
join_room by ben with the old id and the correct key succeeds - ben
becomes a member and no invalid-room-or-key error is sent - whereas the
claim demands immediate deletion and rejection. -/
theorem c1_counterexample :
    alookup c1st1.rooms "r1" = some ⟨"r1", some "secret1", true, [], []⟩ ∧
    ((handleFrame c1st1 "ben"
        (Inbound.frame ⟨"join_room", none, none, none, some "Ben",
          some "r1", some "secret1"⟩)
        3000 "x" "rC" "rD" "n1" "n2").2.all fun e =>
          e != OutEvent.send "ben" (Envelope.error "Invalid room or key")) = true ∧
    (alookup (handleFrame c1st1 "ben"
        (Inbound.frame ⟨"join_room", none, none, none, some "Ben",
          some "r1", some "secret1"⟩)
        3000 "x" "rC" "rD" "n1" "n2").1.rooms "r1").map Room.members =
      some ["ben"] := ⟨rfl, rfl, rfl⟩

theorem closeRooms_alookup (conns : List (String × User)) (cid : String)
    (l : List (String × Room)) (rid : String) :
    alookup (closeRooms conns cid l).1 rid =
      (alookup l rid).map fun room =>
        if cid ∈ room.members then
          ⟨room.id, room.key, room.isPrivate, room.members.erase cid,
            room.messages⟩
        else room := by
  induction l with
  | nil => rfl
  | cons hd t ih =>
      obtain ⟨k0, room0⟩ := hd
      by_cases hk : k0 = rid
      · subst hk
        by_cases hmem : cid ∈ room0.members
        · simp [closeRooms, hmem, alookup]
        · simp [closeRooms, hmem, alookup]
      · by_cases hmem : cid ∈ room0.members
        · simp [closeRooms, hmem, alookup, hk, ih]
        · simp [closeRooms, hmem, alookup, hk, ih]

theorem closeRooms_map_fst (conns : List (String × User)) (cid : String)
    (l : List (String × Room)) :
    ((closeRooms conns cid l).1).map Prod.fst = l.map Prod.fst := by
  induction l with
  | nil => rfl
  | cons hd t ih =>
      obtain ⟨k0, room0⟩ := hd
      by_cases hmem : cid ∈ room0.members
      · simp [closeRooms, hmem, ih]
      · simp [closeRooms, hmem, ih]

/-- C1 (amended): deletion of an emptied private room happens on the
disconnect path.  When a client disconnects while its current room is
private and it was that room's last member, the room - message log and
all - is removed from the registry, and every subsequent join_room
naming that room id (whatever key it presents) is answered with the
invalid-room-or-key error and changes nothing. -/
theorem c1_private_room_deletion (st : ServerState) (cid : String) (u : User)
    (room : Room)
    (hnodup : (st.rooms.map Prod.fst).Nodup)
    (hu : alookup st.conns cid = some u)
    (hroom : alookup st.rooms u.currentRoom = some room)
    (hpriv : room.isPrivate = true)
    (hmem : cid ∈ room.members)
    (hlast : room.members.erase cid = []) :
    alookup (handleClose st cid).1.rooms u.currentRoom = none ∧
    (∀ (cid2 : String) (now : Int) (r1 r2 r3 n1 n2 : String) (m : RawMsg),
      m.tag = "join_room" → m.roomId = some u.currentRoom →
      handleFrame (handleClose st cid).1 cid2 (Inbound.frame m)
          now r1 r2 r3 n1 n2 =
        ((handleClose st cid).1,
          [OutEvent.send cid2 (Envelope.error "Invalid room or key")])) := by
  have hstep : alookup (closeRooms st.conns cid st.rooms).1 u.currentRoom =
      some ⟨room.id, room.key, room.isPrivate, [], room.messages⟩ := by
    rw [closeRooms_alookup, hroom]
    simp [hmem, hlast]
  have hclose : (handleClose st cid).1.rooms =
      aerase (closeRooms st.conns cid st.rooms).1 u.currentRoom := by
    simp only [handleClose, hu, hstep]
    rw [hpriv]
    rfl
  have hnodup2 : (((closeRooms st.conns cid st.rooms).1).map Prod.fst).Nodup := by
    rw [closeRooms_map_fst]
    exact hnodup
  have hgone : alookup (handleClose st cid).1.rooms u.currentRoom = none := by
    rw [hclose]
    exact alookup_aerase_self _ _ hnodup2
  refine ⟨hgone, ?_⟩
  intro cid2 now r1 r2 r3 n1 n2 m htag hrid
  obtain ⟨tag, tx, fu, fn, un, ri, rk⟩ := m
  simp only at htag hrid
  subst htag
  subst hrid
  simp [handleFrame, hgone]

-- Helper lemmas about the room operations.

theorem systemMessage_conns (st : ServerState) (rid text : String) (now : Int)
    (rand : String) : (systemMessage st rid text now rand).1.conns = st.conns := by
  unfold systemMessage
  cases h : alookup st.rooms rid <;> rfl

theorem systemMessage_rateLimits (st : ServerState) (rid text : String)
    (now : Int) (rand : String) :
    (systemMessage st rid text now rand).1.rateLimits = st.rateLimits := by
  unfold systemMessage
  cases h : alookup st.rooms rid <;> rfl

theorem systemMessage_alookup (st : ServerState) (rid text : String)
    (now : Int) (rand : String) (rid2 : String) (room : Room)
    (h : alookup st.rooms rid2 = some room) :
    ∃ msgs2 : List Message,
      alookup (systemMessage st rid text now rand).1.rooms rid2 =
        some ⟨room.id, room.key, room.isPrivate, room.members, msgs2⟩ := by
  unfold systemMessage
  cases hr : alookup st.rooms rid with
  | none => exact ⟨room.messages, by simpa using h⟩
  | some roomT =>
      by_cases he : rid2 = rid
      · subst he
        rw [h] at hr
        obtain rfl := Option.some.inj hr
        exact ⟨_, by simpa using alookup_aset_self st.rooms rid2 _⟩
      · exact ⟨room.messages, by
          simpa using (alookup_aset_ne st.rooms rid rid2 _ he).trans h⟩

theorem leaveRoom_conns (st : ServerState) (cid : String) (now : Int)
    (rand : String) : (leaveRoom st cid now rand).1.conns = st.conns := by
  unfold leaveRoom
  cases hu : alookup st.conns cid with
  | none => rfl
  | some u =>
      dsimp only
      cases hr : alookup st.rooms u.currentRoom with
      | none => rfl
      | some room =>
          dsimp only
          split
          · rw [systemMessage_conns]
          · rfl

theorem leaveRoom_rateLimits (st : ServerState) (cid : String) (now : Int)
    (rand : String) :
    (leaveRoom st cid now rand).1.rateLimits = st.rateLimits := by
  unfold leaveRoom
  cases hu : alookup st.conns cid with
  | none => rfl
  | some u =>
      dsimp only
      cases hr : alookup st.rooms u.currentRoom with
      | none => rfl
      | some room =>
          dsimp only
          split
          · rw [systemMessage_rateLimits]
          · rfl

theorem leaveRoom_alookup (st : ServerState) (cid : String) (now : Int)
    (rand : String) (rid2 : String) (room : Room)
    (h : alookup st.rooms rid2 = some room) :
    ∃ (mem2 : List String) (msgs2 : List Message),
      alookup (leaveRoom st cid now rand).1.rooms rid2 =
        some ⟨room.id, room.key, room.isPrivate, mem2, msgs2⟩ ∧
      (mem2 = room.members ∨ mem2 = room.members.erase cid) := by
  unfold leaveRoom
  cases hu : alookup st.conns cid with
  | none => exact ⟨room.members, room.messages, by simpa using h, Or.inl rfl⟩
  | some u =>
      dsimp only
      cases hr : alookup st.rooms u.currentRoom with
      | none => exact ⟨room.members, room.messages, by simpa using h, Or.inl rfl⟩
      | some roomC =>
          dsimp only
          by_cases he : rid2 = u.currentRoom
          · subst he
            rw [h] at hr
            obtain rfl := Option.some.inj hr
            have hl2 : alookup (aset st.rooms u.currentRoom
                (⟨room.id, room.key, room.isPrivate, room.members.erase cid,
                  room.messages⟩ : Room)) u.currentRoom =
                some ⟨room.id, room.key, room.isPrivate,
                  room.members.erase cid, room.messages⟩ :=
              alookup_aset_self _ _ _
            split
            · obtain ⟨msgs3, hsm⟩ := systemMessage_alookup
                ⟨st.conns, aset st.rooms u.currentRoom
                  ⟨room.id, room.key, room.isPrivate, room.members.erase cid,
                    room.messages⟩, st.rateLimits⟩
                room.id _ now rand u.currentRoom _ hl2
              exact ⟨room.members.erase cid, msgs3, hsm, Or.inr rfl⟩
            · exact ⟨room.members.erase cid, room.messages, hl2, Or.inr rfl⟩
          · have hl2 : alookup (aset st.rooms u.currentRoom
                (⟨roomC.id, roomC.key, roomC.isPrivate,
                  roomC.members.erase cid, roomC.messages⟩ : Room)) rid2 =
                some room :=
              (alookup_aset_ne st.rooms u.currentRoom rid2 _ he).trans h
            split
            · obtain ⟨msgs3, hsm⟩ := systemMessage_alookup
                ⟨st.conns, aset st.rooms u.currentRoom
                  ⟨roomC.id, roomC.key, roomC.isPrivate,
                    roomC.members.erase cid, roomC.messages⟩, st.rateLimits⟩
                roomC.id _ now rand rid2 room hl2
              exact ⟨room.members, msgs3, hsm, Or.inl rfl⟩
            · exact ⟨room.members, room.messages, by simpa using hl2, Or.inl rfl⟩

theorem joinRoom_success (st : ServerState) (cid rid : String) (now : Int)
    (rL rJ : String) (u : User) (room : Room)
    (hu : alookup st.conns cid = some u)
    (hroom : alookup st.rooms rid = some room) :
    (∃ room2 : Room,
       alookup (joinRoom st cid rid now rL rJ).1.rooms rid = some room2 ∧
       cid ∈ room2.members ∧ room2.id = room.id ∧ room2.key = room.key ∧
       room2.isPrivate = room.isPrivate) ∧
    (∃ u2 : User,
       alookup (joinRoom st cid rid now rL rJ).1.conns cid = some u2 ∧
       u2.currentRoom = rid) ∧
    (∃ (msgs : List VisMessage) (uname : String),
       OutEvent.send cid (Envelope.init rid msgs uname) ∈
         (joinRoom st cid rid now rL rJ).2) := by
  obtain ⟨mem2, msgs2, hlook2, hor⟩ :=
    leaveRoom_alookup st cid now rL rid room hroom
  have hconns1 : alookup (leaveRoom st cid now rL).1.conns cid = some u := by
    rw [leaveRoom_conns]
    exact hu
  unfold joinRoom
  rw [hu]
  dsimp only
  rw [hconns1]
  dsimp only
  rw [hlook2]
  dsimp only
  refine ⟨?_, ?_, ?_⟩
  · obtain ⟨msgs3, hsm⟩ := systemMessage_alookup
      ⟨aset (leaveRoom st cid now rL).1.conns cid
        ⟨u.id, u.anonName, rid, u.roomNames⟩,
       aset (leaveRoom st cid now rL).1.rooms rid
        ⟨room.id, room.key, room.isPrivate,
          (if cid ∈ mem2 then mem2 else mem2 ++ [cid]), msgs2⟩,
       (leaveRoom st cid now rL).1.rateLimits⟩
      rid ((if rid = "global" then u.anonName
            else (alookup u.roomNames rid).getD "Guest") ++ " joined the room")
      now rJ rid
      ⟨room.id, room.key, room.isPrivate,
        (if cid ∈ mem2 then mem2 else mem2 ++ [cid]), msgs2⟩
      (alookup_aset_self _ _ _)
    refine ⟨⟨room.id, room.key, room.isPrivate,
      (if cid ∈ mem2 then mem2 else mem2 ++ [cid]), msgs3⟩, hsm, ?_, rfl, rfl, rfl⟩
    by_cases hx : cid ∈ mem2
    · simpa [hx] using hx
    · simp [hx]
  · refine ⟨⟨u.id, u.anonName, rid, u.roomNames⟩, ?_, rfl⟩
    rw [systemMessage_conns]
    exact alookup_aset_self _ _ _
  · refine ⟨getActiveMessages (systemMessage
      ⟨aset (leaveRoom st cid now rL).1.conns cid
        ⟨u.id, u.anonName, rid, u.roomNames⟩,
       aset (leaveRoom st cid now rL).1.rooms rid
        ⟨room.id, room.key, room.isPrivate,
          (if cid ∈ mem2 then mem2 else mem2 ++ [cid]), msgs2⟩,
       (leaveRoom st cid now rL).1.rateLimits⟩
      rid ((if rid = "global" then u.anonName
            else (alookup u.roomNames rid).getD "Guest") ++ " joined the room")
      now rJ).1 rid now,
      (if rid = "global" then u.anonName
       else (alookup u.roomNames rid).getD "Guest"), ?_⟩
    simp [List.mem_append]
/-- C6: a private room with secret S rejects a join_room presenting any
other secret - only the invalid-room-or-key error is sent and the state
(the prior room membership included) is exactly unchanged, so the
connection stays open and in its prior room; a join_room presenting
exactly S with a valid non-duplicate display name succeeds: the joiner
is added to the member set, its currentRoom becomes the room, and it
receives the init snapshot. -/
theorem c6_private_room_secret (st : ServerState) (cid : String) (m : RawMsg)
    (rid S : String) (room : Room) (now : Int) (r1 r2 r3 n1 n2 : String)
    (htag : m.tag = "join_room") (hrid : m.roomId = some rid)
    (hroom : alookup st.rooms rid = some room)
    (hpriv : room.isPrivate = true) (hkey : room.key = some S) :
    (m.roomKey ≠ some S →
      handleFrame st cid (Inbound.frame m) now r1 r2 r3 n1 n2 =
        (st, [OutEvent.send cid (Envelope.error "Invalid room or key")])) ∧
    (∀ u : User, m.roomKey = some S → alookup st.conns cid = some u →
      1 ≤ (resolveName "Guest" m.username).length →
      (resolveName "Guest" m.username).length ≤ 20 →
      isDuplicateName st.conns room rid (resolveName "Guest" m.username) = false →
      (∃ room2 : Room,
         alookup (handleFrame st cid (Inbound.frame m) now r1 r2 r3 n1 n2).1.rooms
           rid = some room2 ∧ cid ∈ room2.members) ∧
      (∃ u2 : User,
         alookup (handleFrame st cid (Inbound.frame m) now r1 r2 r3 n1 n2).1.conns
           cid = some u2 ∧ u2.currentRoom = rid) ∧
      (∃ msgs uname, OutEvent.send cid (Envelope.init rid msgs uname) ∈
         (handleFrame st cid (Inbound.frame m) now r1 r2 r3 n1 n2).2)) := by
  obtain ⟨tag, tx, fu, fn, un, ri, rk⟩ := m
  dsimp only at htag hrid
  subst htag
  subst hrid
  constructor
  · intro hkeyne
    simp [handleFrame, hroom, hpriv, hkey, bne_iff_ne, Ne.symm hkeyne]
  · intro u hkeyeq hu h1 h20 hdup
    subst hkeyeq
    dsimp only at h1 h20 hdup
    have hlen : ¬((resolveName "Guest" un).length = 0 ∨
        (resolveName "Guest" un).length > 20) := by omega
    unfold handleFrame
    dsimp only
    rw [if_neg (by decide : ¬("join_room" : String) = "ping"),
        if_neg (by decide : ¬("join_room" : String) = "message"),
        if_neg (by decide : ¬("join_room" : String) = "create_room"),
        if_pos (rfl : ("join_room" : String) = "join_room")]
    dsimp only [Option.bind]
    rw [hroom]
    dsimp only
    rw [hpriv, hkey]
    simp only [bne_self_eq_false, Bool.and_false, Bool.false_eq_true, if_false]
    rw [if_neg hlen, hdup]
    simp only [Bool.false_eq_true, if_false]
    rw [hu]
    dsimp only
    obtain ⟨⟨room2, hr2, hmem2, _, _, _⟩, hu2, hev⟩ := joinRoom_success
      ⟨aset st.conns cid ⟨u.id, u.anonName, u.currentRoom,
        aset u.roomNames rid (resolveName "Guest" un)⟩, st.rooms, st.rateLimits⟩
      cid rid now r2 r3
      ⟨u.id, u.anonName, u.currentRoom, aset u.roomNames rid (resolveName "Guest" un)⟩
      room (alookup_aset_self _ _ _) hroom
    exact ⟨⟨room2, hr2, hmem2⟩, hu2, hev⟩

def c6st : ServerState :=
  ⟨[("carol", ⟨"carol", "BlueRaven#800", "p1", [("p1", "Carol")]⟩),
    ("dave", ⟨"dave", "QuickShark#801", "global", []⟩)],
   [("global", ⟨"global", none, false, ["dave"], []⟩),
    ("p1", ⟨"p1", some "KK", true, ["carol"], []⟩)], []⟩

/-- Witness for c6_private_room_secret: dave presents the wrong key and
is rejected with the state unchanged; presenting the right key with the
fresh name Dave he becomes a member of p1. -/
theorem c6_witness :
    ((⟨"join_room", none, none, none, some "Dave", some "p1",
        some "WRONG"⟩ : RawMsg).roomKey ≠ some "KK") ∧
    handleFrame c6st "dave"
        (Inbound.frame ⟨"join_room", none, none, none, some "Dave",
          some "p1", some "WRONG"⟩) 5000 "a" "b" "c" "d" "e" =
      (c6st, [OutEvent.send "dave" (Envelope.error "Invalid room or key")]) ∧
    (∃ room2 : Room,
       alookup (handleFrame c6st "dave"
           (Inbound.frame ⟨"join_room", none, none, none, some "Dave",
             some "p1", some "KK"⟩) 5000 "a" "b" "c" "d" "e").1.rooms "p1" =
         some room2 ∧ "dave" ∈ room2.members) := by
  refine ⟨by decide, ?_, ?_⟩
  · exact (c6_private_room_secret c6st "dave"
      ⟨"join_room", none, none, none, some "Dave", some "p1", some "WRONG"⟩
      "p1" "KK" ⟨"p1", some "KK", true, ["carol"], []⟩ 5000 "a" "b" "c" "d" "e"
      rfl rfl rfl rfl rfl).1 (by decide)
  · exact ((c6_private_room_secret c6st "dave"
      ⟨"join_room", none, none, none, some "Dave", some "p1", some "KK"⟩
      "p1" "KK" ⟨"p1", some "KK", true, ["carol"], []⟩ 5000 "a" "b" "c" "d" "e"
      rfl rfl rfl rfl rfl).2 ⟨"dave", "QuickShark#801", "global", []⟩ rfl rfl
      (by decide) (by decide) (by decide)).1

def c1wst : ServerState :=
  ⟨[("amy2", ⟨"amy2", "QuickRaven#700", "r2", [("r2", "Amy")]⟩)],
   [("global", ⟨"global", none, false, [], []⟩),
    ("r2", ⟨"r2", some "sec2", true, ["amy2"], []⟩)], []⟩

/-- Witness for c1_private_room_deletion: amy2 disconnects as the last
member of the private room r2; the room is removed and a later
join_room naming r2 (even with the correct key) is rejected. -/
theorem c1_witness :
    (c1wst.rooms.map Prod.fst).Nodup ∧
    alookup c1wst.conns "amy2" =
      some ⟨"amy2", "QuickRaven#700", "r2", [("r2", "Amy")]⟩ ∧
    alookup (handleClose c1wst "amy2").1.rooms "r2" = none ∧
    handleFrame (handleClose c1wst "amy2").1 "x"
        (Inbound.frame ⟨"join_room", none, none, none, some "Zed",
          some "r2", some "sec2"⟩) 9 "a" "b" "c" "d" "e" =
      ((handleClose c1wst "amy2").1,
        [OutEvent.send "x" (Envelope.error "Invalid room or key")]) := by
  have h := c1_private_room_deletion c1wst "amy2"
    ⟨"amy2", "QuickRaven#700", "r2", [("r2", "Amy")]⟩
    ⟨"r2", some "sec2", true, ["amy2"], []⟩
    (by decide) rfl rfl rfl (by decide) rfl
  exact ⟨by decide, rfl, h.1, h.2 "x" 9 "a" "b" "c" "d" "e"
    ⟨"join_room", none, none, none, some "Zed", some "r2", some "sec2"⟩ rfl rfl⟩

-- Event predicates and shape lemmas for the membership broadcasts.

/-- Is this event a room_users (count) broadcast for this room id. -/
def isRoomUsersEv (rid : String) : OutEvent → Bool
  | OutEvent.broadcast r _ (Envelope.roomUsers _ _) => r == rid
  | _ => false

/-- Is this event a room_user_list broadcast for this room id. -/
def isRoomUserListEv (rid : String) : OutEvent → Bool
  | OutEvent.broadcast r _ (Envelope.roomUserList _) => r == rid
  | _ => false

theorem broadcastToRoom_shape (st : ServerState) (rid : String) (env : Envelope) :
    ∀ e ∈ broadcastToRoom st rid env, ∃ recips,
      e = OutEvent.broadcast rid recips env := by
  unfold broadcastToRoom
  cases h : alookup st.rooms rid with
  | none => intro e he; simp at he
  | some room =>
      intro e he
      simp only [List.mem_singleton] at he
      exact ⟨room.members, he⟩

theorem broadcastUserCount_shape (st : ServerState) (rid : String) :
    ∀ e ∈ broadcastUserCount st rid, ∃ recips n,
      e = OutEvent.broadcast rid recips (Envelope.roomUsers rid n) := by
  unfold broadcastUserCount
  cases h : alookup st.rooms rid with
  | none => intro e he; simp at he
  | some room =>
      intro e he
      obtain ⟨recips, rfl⟩ := broadcastToRoom_shape st rid _ e he
      exact ⟨recips, room.members.length, rfl⟩

theorem broadcastUserList_shape (st : ServerState) (rid : String) :
    ∀ e ∈ broadcastUserList st rid, ∃ recips users,
      e = OutEvent.broadcast rid recips (Envelope.roomUserList users) := by
  unfold broadcastUserList
  cases h : alookup st.rooms rid with
  | none => intro e he; simp at he
  | some room =>
      intro e he
      obtain ⟨recips, rfl⟩ := broadcastToRoom_shape st rid _ e he
      exact ⟨recips, getRoomUsers st rid, rfl⟩

theorem systemMessage_events_shape (st : ServerState) (rid text : String)
    (now : Int) (rand : String) :
    ∀ e ∈ (systemMessage st rid text now rand).2, ∃ recips msg,
      e = OutEvent.broadcast rid recips (Envelope.newMessage msg) := by
  unfold systemMessage
  cases h : alookup st.rooms rid with
  | none => intro e he; simp at he
  | some room =>
      dsimp only
      intro e he
      obtain ⟨recips, rfl⟩ := broadcastToRoom_shape _ rid _ e he
      exact ⟨recips, _, rfl⟩

/-- Every event the leaveRoom operation emits is a broadcast addressed
to the id of the room the user was in. -/
theorem leaveRoom_events_shape (st : ServerState) (cid : String) (now : Int)
    (rand : String) (u : User) (hu : alookup st.conns cid = some u) :
    ∀ e ∈ (leaveRoom st cid now rand).2, ∃ roomC recips env,
      alookup st.rooms u.currentRoom = some roomC ∧
      e = OutEvent.broadcast roomC.id recips env := by
  unfold leaveRoom
  rw [hu]
  dsimp only
  cases hr : alookup st.rooms u.currentRoom with
  | none => intro e he; simp at he
  | some roomC =>
      dsimp only
      intro e he
      rw [List.append_assoc] at he
      rcases List.mem_append.mp he with h1 | h1
      · revert h1
        split
        · intro h1
          obtain ⟨recips, msg, rfl⟩ := systemMessage_events_shape _ _ _ _ _ _ h1
          exact ⟨roomC, recips, _, rfl, rfl⟩
        · intro h1; simp at h1
      · rcases List.mem_append.mp h1 with h2 | h2
        · obtain ⟨recips, n, rfl⟩ := broadcastUserCount_shape _ _ _ h2
          exact ⟨roomC, recips, _, rfl, rfl⟩
        · obtain ⟨recips, users, rfl⟩ := broadcastUserList_shape _ _ _ h2
          exact ⟨roomC, recips, _, rfl, rfl⟩

theorem broadcastToRoom_eq (st : ServerState) (rid : String) (env : Envelope)
    (room : Room) (h : alookup st.rooms rid = some room) :
    broadcastToRoom st rid env = [OutEvent.broadcast rid room.members env] := by
  unfold broadcastToRoom
  rw [h]

theorem broadcastUserCount_eq (st : ServerState) (rid : String) (room : Room)
    (h : alookup st.rooms rid = some room) :
    broadcastUserCount st rid =
      [OutEvent.broadcast rid room.members
        (Envelope.roomUsers rid room.members.length)] := by
  unfold broadcastUserCount
  rw [h]
  exact broadcastToRoom_eq st rid _ room h

theorem broadcastUserList_eq (st : ServerState) (rid : String) (room : Room)
    (h : alookup st.rooms rid = some room) :
    broadcastUserList st rid =
      [OutEvent.broadcast rid room.members
        (Envelope.roomUserList (roomUserEntries st.conns rid room))] := by
  unfold broadcastUserList
  rw [h]
  have h2 : getRoomUsers st rid = roomUserEntries st.conns rid room := by
    unfold getRoomUsers
    rw [h]
  rw [← h2]
  exact broadcastToRoom_eq st rid _ room h

theorem systemMessage_eq (st : ServerState) (rid text : String) (now : Int)
    (rand : String) (room : Room) (h : alookup st.rooms rid = some room) :
    systemMessage st rid text now rand =
      (⟨st.conns, aset st.rooms rid ⟨room.id, room.key, room.isPrivate,
          room.members, room.messages ++ [sysMsgOf text now rand]⟩,
        st.rateLimits⟩,
       [OutEvent.broadcast rid room.members
         (Envelope.newMessage (sysMsgOf text now rand))]) := by
  unfold systemMessage
  rw [h]
  dsimp only
  rw [broadcastToRoom_eq _ rid _ ⟨room.id, room.key, room.isPrivate,
    room.members, room.messages ++ [sysMsgOf text now rand]⟩
    (alookup_aset_self _ _ _)]

/-- The leave half of the membership-broadcast contract: removing a
member decrements the room count by exactly one and emits exactly one
room_users and exactly one room_user_list broadcast for that room; the
count broadcast carries the new member count, and every broadcast the
leave emits is delivered to the post-removal member list (the members
of that room at delivery time). -/
theorem leaveRoom_events (st : ServerState) (cid : String) (now : Int)
    (rand : String) (u : User) (room : Room)
    (hu : alookup st.conns cid = some u)
    (hroomC : alookup st.rooms u.currentRoom = some room)
    (hid : room.id = u.currentRoom)
    (hmem : cid ∈ room.members) :
    (∃ room2 : Room,
       alookup (leaveRoom st cid now rand).1.rooms u.currentRoom = some room2 ∧
       room2.members = room.members.erase cid ∧
       room2.members.length + 1 = room.members.length) ∧
    ((leaveRoom st cid now rand).2.filter (isRoomUsersEv u.currentRoom)).length
      = 1 ∧
    ((leaveRoom st cid now rand).2.filter
      (isRoomUserListEv u.currentRoom)).length = 1 ∧
    (∀ e ∈ (leaveRoom st cid now rand).2,
       isRoomUsersEv u.currentRoom e = true →
         e = OutEvent.broadcast u.currentRoom (room.members.erase cid)
           (Envelope.roomUsers u.currentRoom (room.members.erase cid).length)) ∧
    (∀ e ∈ (leaveRoom st cid now rand).2, ∀ r recips env,
       e = OutEvent.broadcast r recips env →
         recips = room.members.erase cid) := by
  have hlen1 : (room.members.erase cid).length + 1 = room.members.length := by
    have h0 : 0 < room.members.length := List.length_pos_of_mem hmem
    have h1 := List.length_erase_of_mem hmem
    omega
  unfold leaveRoom
  rw [hu]
  dsimp only
  rw [hroomC]
  dsimp only
  rw [hid]
  by_cases hlen : ((room.members.erase cid).length > 0)
  · rw [if_pos hlen]
    rw [systemMessage_eq _ _ _ _ _
      (⟨u.currentRoom, room.key, room.isPrivate, room.members.erase cid,
        room.messages⟩ : Room) (alookup_aset_self _ _ _)]
    dsimp only
    rw [broadcastUserCount_eq _ _
      (⟨u.currentRoom, room.key, room.isPrivate, room.members.erase cid,
        room.messages ++ [sysMsgOf ((if u.currentRoom = "global" then
          u.anonName else (alookup u.roomNames u.currentRoom).getD "Guest") ++
          " left the room") now rand]⟩ : Room) (alookup_aset_self _ _ _)]
    rw [broadcastUserList_eq _ _
      (⟨u.currentRoom, room.key, room.isPrivate, room.members.erase cid,
        room.messages ++ [sysMsgOf ((if u.currentRoom = "global" then
          u.anonName else (alookup u.roomNames u.currentRoom).getD "Guest") ++
          " left the room") now rand]⟩ : Room) (alookup_aset_self _ _ _)]
    refine ⟨⟨_, alookup_aset_self _ _ _, rfl, hlen1⟩, ?_, ?_, ?_, ?_⟩
    · simp [isRoomUsersEv]
    · simp [isRoomUserListEv]
    · intro e he hev
      simp only [List.append_assoc, List.nil_append, List.cons_append,
        List.mem_append, List.mem_cons, List.mem_singleton,
        List.not_mem_nil, or_false, false_or] at he
      rcases he with rfl | rfl | rfl
      · simp [isRoomUsersEv] at hev
      · rfl
      · simp [isRoomUsersEv] at hev
    · intro e he r recips env heq
      simp only [List.append_assoc, List.nil_append, List.cons_append,
        List.mem_append, List.mem_cons, List.mem_singleton,
        List.not_mem_nil, or_false, false_or] at he
      rcases he with rfl | rfl | rfl <;>
        · injection heq with h1 h2 h3
          exact h2.symm
  · rw [if_neg hlen]
    dsimp only
    rw [broadcastUserCount_eq _ _
      (⟨u.currentRoom, room.key, room.isPrivate, room.members.erase cid,
        room.messages⟩ : Room) (alookup_aset_self _ _ _)]
    rw [broadcastUserList_eq _ _
      (⟨u.currentRoom, room.key, room.isPrivate, room.members.erase cid,
        room.messages⟩ : Room) (alookup_aset_self _ _ _)]
    refine ⟨⟨_, alookup_aset_self _ _ _, rfl, hlen1⟩, ?_, ?_, ?_, ?_⟩
    · simp [isRoomUsersEv]
    · simp [isRoomUserListEv]
    · intro e he hev
      simp only [List.append_assoc, List.nil_append, List.cons_append,
        List.mem_append, List.mem_cons, List.mem_singleton,
        List.not_mem_nil, or_false, false_or] at he
      rcases he with rfl | rfl
      · rfl
      · simp [isRoomUsersEv] at hev
    · intro e he r recips env heq
      simp only [List.append_assoc, List.nil_append, List.cons_append,
        List.mem_append, List.mem_cons, List.mem_singleton,
        List.not_mem_nil, or_false, false_or] at he
      rcases he with rfl | rfl <;>
        · injection heq with h1 h2 h3
          exact h2.symm

theorem systemMessage_alookup_ne (st : ServerState) (rid text : String)
    (now : Int) (rand : String) (rid2 : String) (h : rid2 ≠ rid) :
    alookup (systemMessage st rid text now rand).1.rooms rid2 =
      alookup st.rooms rid2 := by
  unfold systemMessage
  cases hr : alookup st.rooms rid with
  | none => rfl
  | some room =>
      dsimp only
      exact alookup_aset_ne _ _ _ _ h

/-- leaveRoom does not touch rooms other than the one the leaving user
is in (under the invariant that rooms are stored under their own id). -/
theorem leaveRoom_alookup_other (st : ServerState) (cid : String) (now : Int)
    (rand : String) (u : User) (rid : String)
    (hu : alookup st.conns cid = some u)
    (hcur : u.currentRoom ≠ rid)
    (hframe : ∀ roomC, alookup st.rooms u.currentRoom = some roomC →
      roomC.id = u.currentRoom) :
    alookup (leaveRoom st cid now rand).1.rooms rid = alookup st.rooms rid := by
  unfold leaveRoom
  rw [hu]
  dsimp only
  cases hr : alookup st.rooms u.currentRoom with
  | none => rfl
  | some roomC =>
      dsimp only
      have hcid : roomC.id = u.currentRoom := hframe roomC hr
      split
      · rw [hcid]
        rw [systemMessage_alookup_ne _ _ _ _ _ _ (Ne.symm hcur)]
        exact alookup_aset_ne _ _ _ _ (Ne.symm hcur)
      · exact alookup_aset_ne _ _ _ _ (Ne.symm hcur)

/-- The join half of the membership-broadcast contract: joining a room
from a different room increments that room count by exactly one and
emits exactly one room_users and exactly one room_user_list broadcast
for it; the count broadcast carries the new count, and every broadcast
addressed to the joined room is delivered to the post-add member list.
-/
theorem joinRoom_events (st : ServerState) (cid rid : String) (now : Int)
    (rL rJ : String) (u : User) (room : Room)
    (hu : alookup st.conns cid = some u)
    (hcur : u.currentRoom ≠ rid)
    (hroom : alookup st.rooms rid = some room)
    (hnm : cid ∉ room.members)
    (hframe : ∀ roomC, alookup st.rooms u.currentRoom = some roomC →
      roomC.id = u.currentRoom) :
    (∃ room2 : Room,
       alookup (joinRoom st cid rid now rL rJ).1.rooms rid = some room2 ∧
       room2.members = room.members ++ [cid] ∧
       room2.members.length = room.members.length + 1) ∧
    ((joinRoom st cid rid now rL rJ).2.filter (isRoomUsersEv rid)).length = 1 ∧
    ((joinRoom st cid rid now rL rJ).2.filter (isRoomUserListEv rid)).length
      = 1 ∧
    (∀ e ∈ (joinRoom st cid rid now rL rJ).2,
       isRoomUsersEv rid e = true →
         e = OutEvent.broadcast rid (room.members ++ [cid])
           (Envelope.roomUsers rid (room.members ++ [cid]).length)) ∧
    (∀ e ∈ (joinRoom st cid rid now rL rJ).2, ∀ recips env,
       e = OutEvent.broadcast rid recips env →
         recips = room.members ++ [cid]) := by
  have hleave : alookup (leaveRoom st cid now rL).1.rooms rid = some room := by
    rw [leaveRoom_alookup_other st cid now rL u rid hu hcur hframe]
    exact hroom
  have hconns1 : alookup (leaveRoom st cid now rL).1.conns cid = some u := by
    rw [leaveRoom_conns]
    exact hu
  have hzero1 : ((leaveRoom st cid now rL).2.filter (isRoomUsersEv rid)) = [] := by
    rw [List.filter_eq_nil_iff]
    intro e he
    obtain ⟨roomC, recips, env, hC, rfl⟩ :=
      leaveRoom_events_shape st cid now rL u hu e he
    have hcc : roomC.id = u.currentRoom := hframe roomC hC
    cases env <;> simp [isRoomUsersEv, hcc, beq_iff_eq]
    exact hcur
  have hzero2 : ((leaveRoom st cid now rL).2.filter (isRoomUserListEv rid)) = [] := by
    rw [List.filter_eq_nil_iff]
    intro e he
    obtain ⟨roomC, recips, env, hC, rfl⟩ :=
      leaveRoom_events_shape st cid now rL u hu e he
    have hcc : roomC.id = u.currentRoom := hframe roomC hC
    cases env <;> simp [isRoomUserListEv, hcc, beq_iff_eq]
    exact hcur
  have hnotleave : ∀ e ∈ (leaveRoom st cid now rL).2, ∀ recips env,
      e ≠ OutEvent.broadcast rid recips env := by
    intro e he recips env heq
    obtain ⟨roomC, recips2, env2, hC, rfl⟩ :=
      leaveRoom_events_shape st cid now rL u hu e he
    have hcc : roomC.id = u.currentRoom := hframe roomC hC
    injection heq with hh1 hh2 hh3
    exact hcur (hcc ▸ hh1)
  unfold joinRoom
  rw [hu]
  dsimp only
  rw [hconns1]
  dsimp only
  rw [hleave]
  dsimp only
  rw [if_neg hnm]
  rw [broadcastUserCount_eq _ _
    (⟨room.id, room.key, room.isPrivate, room.members ++ [cid],
      room.messages⟩ : Room) (alookup_aset_self _ _ _)]
  rw [broadcastUserList_eq _ _
    (⟨room.id, room.key, room.isPrivate, room.members ++ [cid],
      room.messages⟩ : Room) (alookup_aset_self _ _ _)]
  rw [systemMessage_eq _ _ _ _ _
    (⟨room.id, room.key, room.isPrivate, room.members ++ [cid],
      room.messages⟩ : Room) (alookup_aset_self _ _ _)]
  dsimp only
  refine ⟨⟨_, alookup_aset_self _ _ _, rfl, by simp⟩, ?_, ?_, ?_, ?_⟩
  · simp [List.filter_append, hzero1, isRoomUsersEv]
  · simp [List.filter_append, hzero2, isRoomUserListEv]
  · intro e he hev
    simp only [List.append_assoc, List.cons_append, List.nil_append,
      List.mem_append, List.mem_cons, List.mem_singleton,
      List.not_mem_nil, or_false, false_or] at he
    rcases he with he | rfl | rfl | rfl | rfl
    · exact absurd hev (by
        have := (List.filter_eq_nil_iff.mp hzero1) e he
        simpa using this)
    · rfl
    · simp [isRoomUsersEv] at hev
    · simp [isRoomUsersEv] at hev
    · simp [isRoomUsersEv] at hev
  · intro e he recips env heq
    simp only [List.append_assoc, List.cons_append, List.nil_append,
      List.mem_append, List.mem_cons, List.mem_singleton,
      List.not_mem_nil, or_false, false_or] at he
    rcases he with he | rfl | rfl | rfl | rfl
    · exact absurd heq (hnotleave e he recips env)
    · injection heq with hh1 hh2 hh3
      exact hh2.symm
    · injection heq with hh1 hh2 hh3
      exact hh2.symm
    · injection heq with hh1 hh2 hh3
      exact hh2.symm
    · simp at heq

/-- C7: every membership change of a room - a leave by its member, or a
join from another room - changes that room's member count by exactly 1
and triggers exactly one room_users (count) broadcast and exactly one
room_user_list broadcast for it, both delivered only to the members of
that room at delivery time (the count broadcast carrying the new
count). -/
theorem c7_membership_broadcasts :
    (∀ (st : ServerState) (cid : String) (now : Int) (rand : String)
       (u : User) (room : Room),
       alookup st.conns cid = some u →
       alookup st.rooms u.currentRoom = some room →
       room.id = u.currentRoom →
       cid ∈ room.members →
       (∃ room2 : Room,
          alookup (leaveRoom st cid now rand).1.rooms u.currentRoom =
            some room2 ∧
          room2.members = room.members.erase cid ∧
          room2.members.length + 1 = room.members.length) ∧
       ((leaveRoom st cid now rand).2.filter
         (isRoomUsersEv u.currentRoom)).length = 1 ∧
       ((leaveRoom st cid now rand).2.filter
         (isRoomUserListEv u.currentRoom)).length = 1 ∧
       (∀ e ∈ (leaveRoom st cid now rand).2,
          isRoomUsersEv u.currentRoom e = true →
            e = OutEvent.broadcast u.currentRoom (room.members.erase cid)
              (Envelope.roomUsers u.currentRoom
                (room.members.erase cid).length)) ∧
       (∀ e ∈ (leaveRoom st cid now rand).2, ∀ r recips env,
          e = OutEvent.broadcast r recips env →
            recips = room.members.erase cid)) ∧
    (∀ (st : ServerState) (cid rid : String) (now : Int) (rL rJ : String)
       (u : User) (room : Room),
       alookup st.conns cid = some u →
       u.currentRoom ≠ rid →
       alookup st.rooms rid = some room →
       cid ∉ room.members →
       (∀ roomC, alookup st.rooms u.currentRoom = some roomC →
         roomC.id = u.currentRoom) →
       (∃ room2 : Room,
          alookup (joinRoom st cid rid now rL rJ).1.rooms rid = some room2 ∧
          room2.members = room.members ++ [cid] ∧
          room2.members.length = room.members.length + 1) ∧
       ((joinRoom st cid rid now rL rJ).2.filter (isRoomUsersEv rid)).length
         = 1 ∧
       ((joinRoom st cid rid now rL rJ).2.filter
         (isRoomUserListEv rid)).length = 1 ∧
       (∀ e ∈ (joinRoom st cid rid now rL rJ).2,
          isRoomUsersEv rid e = true →
            e = OutEvent.broadcast rid (room.members ++ [cid])
              (Envelope.roomUsers rid (room.members ++ [cid]).length)) ∧
       (∀ e ∈ (joinRoom st cid rid now rL rJ).2, ∀ recips env,
          e = OutEvent.broadcast rid recips env →
            recips = room.members ++ [cid])) :=
  ⟨fun st cid now rand u room hu hr hid hmem =>
      leaveRoom_events st cid now rand u room hu hr hid hmem,
   fun st cid rid now rL rJ u room hu hcur hroom hnm hframe =>
      joinRoom_events st cid rid now rL rJ u room hu hcur hroom hnm hframe⟩

def c7st : ServerState :=
  ⟨[("elsa", ⟨"elsa", "ColdTiger#900", "q1", [("q1", "Elsa")]⟩),
    ("fred", ⟨"fred", "BlueShark#901", "q1", [("q1", "Fred")]⟩),
    ("gina", ⟨"gina", "DarkFox#902", "global", []⟩)],
   [("global", ⟨"global", none, false, ["gina"], []⟩),
    ("q1", ⟨"q1", some "qq", true, ["elsa", "fred"], []⟩)], []⟩

/-- Witness for c7_membership_broadcasts: elsa leaves q1 (count 2 to 1,
one count and one list broadcast) and gina joins q1 from global. -/
theorem c7_witness :
    alookup c7st.conns "elsa" =
      some ⟨"elsa", "ColdTiger#900", "q1", [("q1", "Elsa")]⟩ ∧
    ((leaveRoom c7st "elsa" 100 "rr").2.filter (isRoomUsersEv "q1")).length
      = 1 ∧
    ((leaveRoom c7st "elsa" 100 "rr").2.filter
      (isRoomUserListEv "q1")).length = 1 ∧
    ((joinRoom c7st "gina" "q1" 200 "ra" "rb").2.filter
      (isRoomUsersEv "q1")).length = 1 ∧
    (∃ room2 : Room,
       alookup (joinRoom c7st "gina" "q1" 200 "ra" "rb").1.rooms "q1" =
         some room2 ∧
       room2.members = ["elsa", "fred"] ++ ["gina"] ∧
       room2.members.length = (["elsa", "fred"] : List String).length + 1) := by
  have hframe7 : ∀ roomC : Room,
      alookup c7st.rooms "global" = some roomC → roomC.id = "global" := by
    intro roomC h
    have h2 : (⟨"global", none, false, ["gina"], []⟩ : Room) = roomC :=
      Option.some.inj h
    rw [← h2]
  have hL := (c7_membership_broadcasts).1 c7st "elsa" 100 "rr"
    ⟨"elsa", "ColdTiger#900", "q1", [("q1", "Elsa")]⟩
    ⟨"q1", some "qq", true, ["elsa", "fred"], []⟩ rfl rfl rfl (by decide)
  have hJ := (c7_membership_broadcasts).2 c7st "gina" "q1" 200 "ra" "rb"
    ⟨"gina", "DarkFox#902", "global", []⟩
    ⟨"q1", some "qq", true, ["elsa", "fred"], []⟩ rfl (by decide) rfl
    (by decide) hframe7
  exact ⟨rfl, hL.2.1, hL.2.2.1, hJ.2.1, hJ.1⟩

theorem getActiveMessages_mem_iff (st : ServerState) (rid : String)
    (room : Room) (now : Int) (hroom : alookup st.rooms rid = some room)
    (vm : VisMessage) :
    vm ∈ getActiveMessages st rid now ↔
      vm.msg ∈ room.messages ∧ now - vm.msg.timestamp ≤ MESSAGE_TTL ∧
      vm.remainingTime = MESSAGE_TTL - (now - vm.msg.timestamp) := by
  simp only [getActiveMessages, hroom, List.mem_map, List.mem_filter,
    decide_eq_true_eq]
  constructor
  · rintro ⟨a, ⟨ha, hle⟩, rfl⟩
    exact ⟨ha, hle, rfl⟩
  · rintro ⟨hmem, hle, hrem⟩
    refine ⟨vm.msg, ⟨hmem, hle⟩, ?_⟩
    obtain ⟨m, r⟩ := vm
    simp only at hrem ⊢
    rw [hrem]

theorem sweepState_alookup (st : ServerState) (now : Int) (rid : String) :
    alookup (sweepState st now).rooms rid =
      (alookup st.rooms rid).map (sweepRoom now) := by
  show alookup (st.rooms.map fun kv => (kv.1, sweepRoom now kv.2)) rid = _
  rw [alookup_map_value st.rooms (fun _ r => sweepRoom now r) rid]

/-- C10: a join of an existing room appends exactly one system notice
("<name> joined the room", sender System, senderId system) to that room
log and broadcasts it as new_message; a leave that still has members
remaining appends the "<name> left the room" notice likewise; system
notices sit in the log as ordinary messages: they appear in the visible
backlog (hence in later init snapshots) while within the TTL and are
removed by sweep exactly like user messages. -/
theorem c10_system_notices :
    (∀ (st : ServerState) (cid rid : String) (now : Int) (rL rJ : String)
       (u : User) (room : Room),
       alookup st.conns cid = some u → u.currentRoom ≠ rid →
       alookup st.rooms rid = some room →
       (∀ roomC, alookup st.rooms u.currentRoom = some roomC →
         roomC.id = u.currentRoom) →
       ∃ room2 : Room,
         alookup (joinRoom st cid rid now rL rJ).1.rooms rid = some room2 ∧
         room2.messages = room.messages ++
           [sysMsgOf ((if rid = "global" then u.anonName
             else (alookup u.roomNames rid).getD "Guest") ++
             " joined the room") now rJ] ∧
         (∃ recips, OutEvent.broadcast rid recips (Envelope.newMessage
           (sysMsgOf ((if rid = "global" then u.anonName
             else (alookup u.roomNames rid).getD "Guest") ++
             " joined the room") now rJ)) ∈
           (joinRoom st cid rid now rL rJ).2)) ∧
    (∀ (st : ServerState) (cid : String) (now : Int) (rand : String)
       (u : User) (room : Room),
       alookup st.conns cid = some u →
       alookup st.rooms u.currentRoom = some room →
       room.id = u.currentRoom →
       room.members.erase cid ≠ [] →
       ∃ room2 : Room,
         alookup (leaveRoom st cid now rand).1.rooms u.currentRoom =
           some room2 ∧
         room2.messages = room.messages ++
           [sysMsgOf ((if u.currentRoom = "global" then u.anonName
             else (alookup u.roomNames u.currentRoom).getD "Guest") ++
             " left the room") now rand] ∧
         (∃ recips, OutEvent.broadcast u.currentRoom recips
           (Envelope.newMessage (sysMsgOf ((if u.currentRoom = "global"
             then u.anonName
             else (alookup u.roomNames u.currentRoom).getD "Guest") ++
             " left the room") now rand)) ∈
           (leaveRoom st cid now rand).2)) ∧
    (∀ (text : String) (now : Int) (rand : String),
       (sysMsgOf text now rand).sender = "System" ∧
       (sysMsgOf text now rand).senderId = "system" ∧
       (sysMsgOf text now rand).isSystem = true ∧
       (sysMsgOf text now rand).timestamp = now) ∧
    (∀ (st : ServerState) (rid : String) (room : Room) (m : Message)
       (now2 : Int),
       alookup st.rooms rid = some room → m ∈ room.messages →
       (((⟨m, MESSAGE_TTL - (now2 - m.timestamp)⟩ : VisMessage) ∈
           getActiveMessages st rid now2) ↔
         now2 - m.timestamp ≤ MESSAGE_TTL) ∧
       (MESSAGE_TTL < now2 - m.timestamp →
         ∀ room3 : Room, alookup (sweepState st now2).rooms rid =
           some room3 → m ∉ room3.messages)) := by
  refine ⟨?_, ?_, ?_, ?_⟩
  · intro st cid rid now rL rJ u room hu hcur hroom hframe
    have hleave : alookup (leaveRoom st cid now rL).1.rooms rid = some room := by
      rw [leaveRoom_alookup_other st cid now rL u rid hu hcur hframe]
      exact hroom
    have hconns1 : alookup (leaveRoom st cid now rL).1.conns cid = some u := by
      rw [leaveRoom_conns]
      exact hu
    unfold joinRoom
    rw [hu]
    dsimp only
    rw [hconns1]
    dsimp only
    rw [hleave]
    dsimp only
    rw [systemMessage_eq _ _ _ _ _
      (⟨room.id, room.key, room.isPrivate,
        (if cid ∈ room.members then room.members else room.members ++ [cid]),
        room.messages⟩ : Room) (alookup_aset_self _ _ _)]
    dsimp only
    refine ⟨_, alookup_aset_self _ _ _, rfl,
      ⟨(if cid ∈ room.members then room.members else room.members ++ [cid]),
        ?_⟩⟩
    simp [List.mem_append]
  · intro st cid now rand u room hu hroomC hid hrem
    have hlen : ((room.members.erase cid).length > 0) :=
      List.length_pos.mpr hrem
    unfold leaveRoom
    rw [hu]
    dsimp only
    rw [hroomC]
    dsimp only
    rw [hid, if_pos hlen]
    rw [systemMessage_eq _ _ _ _ _
      (⟨u.currentRoom, room.key, room.isPrivate, room.members.erase cid,
        room.messages⟩ : Room) (alookup_aset_self _ _ _)]
    dsimp only
    refine ⟨_, alookup_aset_self _ _ _, rfl, ⟨room.members.erase cid, ?_⟩⟩
    simp [List.mem_append]
  · intro text now rand
    exact ⟨rfl, rfl, rfl, rfl⟩
  · intro st rid room m now2 hroom hm
    constructor
    · rw [getActiveMessages_mem_iff st rid room now2 hroom]
      constructor
      · rintro ⟨_, hle, _⟩
        exact hle
      · intro hle
        exact ⟨hm, hle, rfl⟩
    · intro hpast room3 h3
      rw [sweepState_alookup, hroom] at h3
      have hr3 : room3 = sweepRoom now2 room := (Option.some.inj h3).symm
      subst hr3
      intro hmem3
      simp only [sweepRoom] at hmem3
      rcases List.mem_filter.mp hmem3 with ⟨_, hdec⟩
      rw [decide_eq_true_eq] at hdec
      omega

/-- Witness for c10_system_notices at the c7st sample: gina joining q1
appends the "Guest joined the room" notice (gina has no stored name for
q1) and it is broadcast; elsa leaving q1 (fred remains) appends the
"Elsa left the room" notice and it is broadcast. -/
theorem c10_witness :
    alookup c7st.conns "gina" = some ⟨"gina", "DarkFox#902", "global", []⟩ ∧
    (∃ room2 : Room,
       alookup (joinRoom c7st "gina" "q1" 200 "ra" "rb").1.rooms "q1" =
         some room2 ∧
       room2.messages = [] ++ [sysMsgOf "Guest joined the room" 200 "rb"] ∧
       (∃ recips, OutEvent.broadcast "q1" recips (Envelope.newMessage
         (sysMsgOf "Guest joined the room" 200 "rb")) ∈
         (joinRoom c7st "gina" "q1" 200 "ra" "rb").2)) ∧
    (∃ room2 : Room,
       alookup (leaveRoom c7st "elsa" 100 "rr").1.rooms "q1" = some room2 ∧
       room2.messages = [] ++ [sysMsgOf "Elsa left the room" 100 "rr"] ∧
       (∃ recips, OutEvent.broadcast "q1" recips (Envelope.newMessage
         (sysMsgOf "Elsa left the room" 100 "rr")) ∈
         (leaveRoom c7st "elsa" 100 "rr").2)) := by
  have hframe7 : ∀ roomC : Room,
      alookup c7st.rooms "global" = some roomC → roomC.id = "global" := by
    intro roomC h
    have h2 : (⟨"global", none, false, ["gina"], []⟩ : Room) = roomC :=
      Option.some.inj h
    rw [← h2]
  have hJ := c10_system_notices.1 c7st "gina" "q1" 200 "ra" "rb"
    ⟨"gina", "DarkFox#902", "global", []⟩
    ⟨"q1", some "qq", true, ["elsa", "fred"], []⟩ rfl (by decide) rfl hframe7
  have hL := c10_system_notices.2.1 c7st "elsa" 100 "rr"
    ⟨"elsa", "ColdTiger#900", "q1", [("q1", "Elsa")]⟩
    ⟨"q1", some "qq", true, ["elsa", "fred"], []⟩ rfl rfl rfl (by decide)
  exact ⟨rfl, hJ, hL⟩

-- Reachability and the membership invariant (for the implicit claim on
-- room membership).

/-- The boot state: the global room, no connections, no rate entries. -/
def initState : ServerState :=
  ⟨[], [("global", ⟨"global", none, false, [], []⟩)], []⟩

/-- One server event: a fresh connection opens (crypto.randomUUID gives
an unused id), an open connection sends a frame, an open connection
closes, or a sweep tick fires. -/
inductive Step : ServerState → ServerState → Prop where
  | connect (st : ServerState) (cid anon : String) (now : Int)
      (rL rJ : String) (h : alookup st.conns cid = none) :
      Step st (handleConnect st cid anon now rL rJ).1
  | frame (st : ServerState) (cid : String) (inb : Inbound) (now : Int)
      (rM rL rJ nrid nrkey : String)
      (h : (alookup st.conns cid).isSome) :
      Step st (handleFrame st cid inb now rM rL rJ nrid nrkey).1
  | close (st : ServerState) (cid : String)
      (h : (alookup st.conns cid).isSome) :
      Step st (handleClose st cid).1
  | sweep (st : ServerState) (now : Int) : Step st (sweepState st now)

/-- States reachable from boot. -/
inductive Reachable : ServerState → Prop where
  | init : Reachable initState
  | step (st st2 : ServerState) : Reachable st → Step st st2 → Reachable st2

/-- The membership invariant: room keys are unique, every room is stored
under its own id, member lists have no duplicates, and every member is
an open connection whose currentRoom is that room. -/
def MemInv (st : ServerState) : Prop :=
  (st.rooms.map Prod.fst).Nodup ∧
  ∀ rid room, alookup st.rooms rid = some room →
    room.id = rid ∧ room.members.Nodup ∧
    ∀ c ∈ room.members, ∃ u, alookup st.conns c = some u ∧
      u.currentRoom = rid

theorem MemInv_init : MemInv initState := by
  constructor
  · simp [initState]
  · intro rid room h
    simp only [initState, alookup] at h
    by_cases hr : "global" = rid
    · rw [if_pos hr] at h
      obtain rfl := Option.some.inj h
      exact ⟨hr, List.nodup_nil, by intro c hc; simp at hc⟩
    · rw [if_neg hr] at h
      simp at h

theorem alookup_mem_keys {α : Type} (l : List (String × α)) (k : String)
    (v : α) (h : alookup l k = some v) : k ∈ l.map Prod.fst := by
  induction l with
  | nil => simp [alookup] at h
  | cons hd t ih =>
      obtain ⟨k0, v0⟩ := hd
      by_cases hk : k0 = k
      · simp [hk]
      · simp only [alookup, if_neg hk] at h
        simp [ih h]

/-- Reading back a room after systemMessage: it existed before with the
same id, key, privacy and members (only messages can differ). -/
theorem systemMessage_alookup_rev (st : ServerState) (rid text : String)
    (now : Int) (rand : String) (rid2 : String) (room2 : Room)
    (h : alookup (systemMessage st rid text now rand).1.rooms rid2 =
      some room2) :
    ∃ room, alookup st.rooms rid2 = some room ∧ room2.id = room.id ∧
      room2.key = room.key ∧ room2.isPrivate = room.isPrivate ∧
      room2.members = room.members := by
  unfold systemMessage at h
  cases hr : alookup st.rooms rid with
  | none =>
      rw [hr] at h
      exact ⟨room2, h, rfl, rfl, rfl, rfl⟩
  | some roomT =>
      rw [hr] at h
      dsimp only at h
      by_cases he : rid2 = rid
      · subst he
        rw [alookup_aset_self] at h
        obtain rfl := (Option.some.inj h).symm
        exact ⟨roomT, hr, rfl, rfl, rfl, rfl⟩
      · rw [alookup_aset_ne _ _ _ _ he] at h
        exact ⟨room2, h, rfl, rfl, rfl, rfl⟩

theorem systemMessage_rooms_keys (st : ServerState) (rid text : String)
    (now : Int) (rand : String) (h : (st.rooms.map Prod.fst).Nodup) :
    (((systemMessage st rid text now rand).1.rooms).map Prod.fst).Nodup := by
  unfold systemMessage
  cases hr : alookup st.rooms rid with
  | none => exact h
  | some roomT =>
      dsimp only
      exact aset_map_fst_nodup _ _ _ h

theorem MemInv_systemMessage (st : ServerState) (rid text : String) (now : Int)
    (rand : String) (h : MemInv st) :
    MemInv (systemMessage st rid text now rand).1 := by
  constructor
  · exact systemMessage_rooms_keys st rid text now rand h.1
  · intro rid2 room2 h2
    obtain ⟨room, hroom, hidq, _, _, hmem⟩ :=
      systemMessage_alookup_rev st rid text now rand rid2 room2 h2
    obtain ⟨hid0, hnd0, hc0⟩ := h.2 rid2 room hroom
    refine ⟨hidq.trans hid0, hmem ▸ hnd0, ?_⟩
    intro c hc
    rw [hmem] at hc
    obtain ⟨u, hu, hcur⟩ := hc0 c hc
    refine ⟨u, ?_, hcur⟩
    rw [show (systemMessage st rid text now rand).1.conns = st.conns from
      systemMessage_conns st rid text now rand]
    exact hu

theorem MemInv_leaveRoom (st : ServerState) (cid : String) (now : Int)
    (rand : String) (h : MemInv st) :
    MemInv (leaveRoom st cid now rand).1 ∧
    (∀ u, alookup st.conns cid = some u →
      ∀ rid room, alookup (leaveRoom st cid now rand).1.rooms rid =
        some room → cid ∉ room.members) := by
  unfold leaveRoom
  cases hu : alookup st.conns cid with
  | none => exact ⟨h, by intro u hc; simp at hc⟩
  | some u =>
      dsimp only
      cases hr : alookup st.rooms u.currentRoom with
      | none =>
          refine ⟨h, ?_⟩
          intro u2 hu2 rid room hrm hmem
          obtain rfl := Option.some.inj hu2
          obtain ⟨_, _, hall⟩ := h.2 rid room hrm
          obtain ⟨u3, hu3, hcur3⟩ := hall cid hmem
          rw [hu] at hu3
          obtain rfl := Option.some.inj hu3
          rw [hcur3] at hr
          rw [hrm] at hr
          simp at hr
      | some roomC =>
          dsimp only
          obtain ⟨hidC, hndC, hallC⟩ := h.2 u.currentRoom roomC hr
          have hmid : MemInv ⟨st.conns, aset st.rooms u.currentRoom
              ⟨roomC.id, roomC.key, roomC.isPrivate,
                roomC.members.erase cid, roomC.messages⟩, st.rateLimits⟩ := by
            constructor
            · exact aset_map_fst_nodup _ _ _ h.1
            · intro rid2 room2 h2
              by_cases he : rid2 = u.currentRoom
              · subst he
                rw [alookup_aset_self] at h2
                obtain rfl := (Option.some.inj h2).symm
                refine ⟨hidC, hndC.erase cid, ?_⟩
                intro c hc
                exact hallC c (List.mem_of_mem_erase hc)
              · rw [alookup_aset_ne _ _ _ _ he] at h2
                exact h.2 rid2 room2 h2
          have hnotmem : ∀ rid room, alookup (aset st.rooms u.currentRoom
              (⟨roomC.id, roomC.key, roomC.isPrivate,
                roomC.members.erase cid, roomC.messages⟩ : Room)) rid =
              some room → cid ∉ room.members := by
            intro rid room h2 hmem
            by_cases he : rid = u.currentRoom
            · subst he
              rw [alookup_aset_self] at h2
              obtain rfl := (Option.some.inj h2).symm
              exact ((List.Nodup.mem_erase_iff hndC).mp hmem).1 rfl
            · rw [alookup_aset_ne _ _ _ _ he] at h2
              obtain ⟨_, _, hall⟩ := h.2 rid room h2
              obtain ⟨u3, hu3, hcur3⟩ := hall cid hmem
              rw [hu] at hu3
              obtain rfl := Option.some.inj hu3
              exact he hcur3.symm
          split
          · constructor
            · exact MemInv_systemMessage _ _ _ _ _ hmid
            · intro u2 hu2 rid room h2 hmem
              obtain ⟨room0, h0, _, _, _, hm0⟩ :=
                systemMessage_alookup_rev _ _ _ _ _ _ _ h2
              rw [hm0] at hmem
              exact hnotmem rid room0 h0 hmem
          · constructor
            · exact hmid
            · intro u2 hu2 rid room h2 hmem
              exact hnotmem rid room h2 hmem

theorem joinRoom_conns_currentRoom (st : ServerState) (cid rid : String)
    (now : Int) (rL rJ : String) (u : User)
    (hu : alookup st.conns cid = some u) :
    ∃ u2, alookup (joinRoom st cid rid now rL rJ).1.conns cid = some u2 ∧
      u2.currentRoom = rid := by
  have hconns1 : alookup (leaveRoom st cid now rL).1.conns cid = some u := by
    rw [leaveRoom_conns]
    exact hu
  unfold joinRoom
  rw [hu]
  dsimp only
  rw [hconns1]
  dsimp only
  cases hrm : alookup (leaveRoom st cid now rL).1.rooms rid with
  | none =>
      exact ⟨⟨u.id, u.anonName, rid, u.roomNames⟩,
        alookup_aset_self _ _ _, rfl⟩
  | some room1 =>
      dsimp only
      refine ⟨⟨u.id, u.anonName, rid, u.roomNames⟩, ?_, rfl⟩
      rw [systemMessage_conns]
      exact alookup_aset_self _ _ _

theorem MemInv_joinRoom (st : ServerState) (cid rid : String) (now : Int)
    (rL rJ : String) (h : MemInv st) :
    MemInv (joinRoom st cid rid now rL rJ).1 := by
  unfold joinRoom
  cases hu : alookup st.conns cid with
  | none => exact h
  | some u =>
      dsimp only
      obtain ⟨h1, hnot1⟩ := MemInv_leaveRoom st cid now rL h
      have hconns1 : alookup (leaveRoom st cid now rL).1.conns cid = some u := by
        rw [leaveRoom_conns]
        exact hu
      rw [hconns1]
      dsimp only
      have hnot2 : ∀ rid2 room2,
          alookup (leaveRoom st cid now rL).1.rooms rid2 = some room2 →
            cid ∉ room2.members := hnot1 u hu
      have h2 : MemInv ⟨aset (leaveRoom st cid now rL).1.conns cid
          ⟨u.id, u.anonName, rid, u.roomNames⟩,
          (leaveRoom st cid now rL).1.rooms,
          (leaveRoom st cid now rL).1.rateLimits⟩ := by
        constructor
        · exact h1.1
        · intro rid2 room2 hrm
          obtain ⟨hid2, hnd2, hall2⟩ := h1.2 rid2 room2 hrm
          refine ⟨hid2, hnd2, ?_⟩
          intro c hc
          obtain ⟨u3, hu3, hcur3⟩ := hall2 c hc
          have hcne : c ≠ cid := by
            intro hh
            subst hh
            exact hnot2 rid2 room2 hrm hc
          refine ⟨u3, ?_, hcur3⟩
          rw [alookup_aset_ne _ _ _ _ hcne]
          exact hu3
      cases hrm : alookup (leaveRoom st cid now rL).1.rooms rid with
      | none => exact h2
      | some room1 =>
          dsimp only
          have hnm1 : cid ∉ room1.members := hnot2 rid room1 hrm
          obtain ⟨hid1, hnd1, hall1⟩ := h1.2 rid room1 hrm
          rw [if_neg hnm1]
          apply MemInv_systemMessage
          constructor
          · exact aset_map_fst_nodup _ _ _ h1.1
          · intro rid2 room2 hrm2
            by_cases he : rid2 = rid
            · subst he
              rw [alookup_aset_self] at hrm2
              obtain rfl := (Option.some.inj hrm2).symm
              refine ⟨hid1, ?_, ?_⟩
              · refine List.Nodup.append hnd1 (List.nodup_singleton cid) ?_
                intro a ha hb
                rw [List.mem_singleton] at hb
                subst hb
                exact hnm1 ha
              · intro c hc
                rcases List.mem_append.mp hc with hc1 | hc1
                · obtain ⟨u3, hu3, hcur3⟩ := hall1 c hc1
                  have hcne : c ≠ cid := fun hh => hnm1 (hh ▸ hc1)
                  refine ⟨u3, ?_, hcur3⟩
                  rw [alookup_aset_ne _ _ _ _ hcne]
                  exact hu3
                · rw [List.mem_singleton] at hc1
                  subst hc1
                  exact ⟨⟨u.id, u.anonName, rid2, u.roomNames⟩,
                    alookup_aset_self _ _ _, rfl⟩
            · rw [alookup_aset_ne _ _ _ _ he] at hrm2
              exact h2.2 rid2 room2 hrm2

theorem MemInv_set_messages (st : ServerState) (rid : String) (room : Room)
    (msgs : List Message) (rl : List (String × Int))
    (h : MemInv st) (hroom : alookup st.rooms rid = some room) :
    MemInv ⟨st.conns, aset st.rooms rid
      ⟨room.id, room.key, room.isPrivate, room.members, msgs⟩, rl⟩ := by
  obtain ⟨hid0, hnd0, hall0⟩ := h.2 rid room hroom
  constructor
  · exact aset_map_fst_nodup _ _ _ h.1
  · intro rid2 room2 h2
    by_cases he : rid2 = rid
    · subst he
      rw [alookup_aset_self] at h2
      obtain rfl := (Option.some.inj h2).symm
      exact ⟨hid0, hnd0, hall0⟩
    · rw [alookup_aset_ne _ _ _ _ he] at h2
      exact h.2 rid2 room2 h2

theorem MemInv_set_roomNames (st : ServerState) (cid : String) (u : User)
    (rn : List (String × String)) (rl : List (String × Int))
    (h : MemInv st) (hu : alookup st.conns cid = some u) :
    MemInv ⟨aset st.conns cid ⟨u.id, u.anonName, u.currentRoom, rn⟩,
      st.rooms, rl⟩ := by
  constructor
  · exact h.1
  · intro rid2 room2 h2
    obtain ⟨hid2, hnd2, hall2⟩ := h.2 rid2 room2 h2
    refine ⟨hid2, hnd2, ?_⟩
    intro c hc
    obtain ⟨u3, hu3, hcur3⟩ := hall2 c hc
    by_cases hce : c = cid
    · subst hce
      rw [hu] at hu3
      obtain rfl := Option.some.inj hu3
      exact ⟨⟨u.id, u.anonName, u.currentRoom, rn⟩,
        alookup_aset_self _ _ _, hcur3⟩
    · refine ⟨u3, ?_, hcur3⟩
      rw [alookup_aset_ne _ _ _ _ hce]
      exact hu3

theorem MemInv_new_room (st : ServerState) (nrid : String) (key : Option String)
    (priv : Bool) (msgs : List Message) (rl : List (String × Int))
    (h : MemInv st) :
    MemInv ⟨st.conns, aset st.rooms nrid ⟨nrid, key, priv, [], msgs⟩, rl⟩ := by
  constructor
  · exact aset_map_fst_nodup _ _ _ h.1
  · intro rid2 room2 h2
    by_cases he : rid2 = nrid
    · subst he
      rw [alookup_aset_self] at h2
      obtain rfl := (Option.some.inj h2).symm
      exact ⟨rfl, List.nodup_nil, by intro c hc; simp at hc⟩
    · rw [alookup_aset_ne _ _ _ _ he] at h2
      exact h.2 rid2 room2 h2

theorem MemInv_fresh_conn (st : ServerState) (cid : String) (u0 : User)
    (h : MemInv st) (hfresh : alookup st.conns cid = none) :
    MemInv ⟨aset st.conns cid u0, st.rooms, st.rateLimits⟩ := by
  constructor
  · exact h.1
  · intro rid2 room2 h2
    obtain ⟨hid2, hnd2, hall2⟩ := h.2 rid2 room2 h2
    refine ⟨hid2, hnd2, ?_⟩
    intro c hc
    obtain ⟨u3, hu3, hcur3⟩ := hall2 c hc
    have hce : c ≠ cid := by
      intro hh
      subst hh
      rw [hfresh] at hu3
      simp at hu3
    refine ⟨u3, ?_, hcur3⟩
    rw [alookup_aset_ne _ _ _ _ hce]
    exact hu3

theorem MemInv_handleFrame (st : ServerState) (cid : String) (inb : Inbound)
    (now : Int) (rM rL rJ nrid nrkey : String) (h : MemInv st) :
    MemInv (handleFrame st cid inb now rM rL rJ nrid nrkey).1 := by
  unfold handleFrame
  cases inb with
  | malformed => exact h
  | frame m =>
      dsimp only
      split
      · exact h
      · split
        · -- message
          cases hu : alookup st.conns cid with
          | none => exact h
          | some u =>
              dsimp only
              split
              · exact h
              · split
                · exact ⟨h.1, h.2⟩
                · cases hrm : alookup st.rooms u.currentRoom with
                  | none => exact ⟨h.1, h.2⟩
                  | some room =>
                      dsimp only
                      exact MemInv_set_messages
                        ⟨st.conns, st.rooms, _⟩ u.currentRoom room _ _
                        ⟨h.1, h.2⟩ hrm
        · split
          · -- create_room
            split
            · exact MemInv_new_room st nrid (some nrkey) true [] _ h
            · cases hu : alookup st.conns cid with
              | none => exact MemInv_new_room st nrid (some nrkey) true [] _ h
              | some u =>
                  dsimp only
                  apply MemInv_joinRoom
                  exact MemInv_set_roomNames
                    ⟨st.conns, aset st.rooms nrid ⟨nrid, some nrkey, true,
                      [], []⟩, st.rateLimits⟩ cid u _ _
                    (MemInv_new_room st nrid (some nrkey) true [] _ h) hu
          · split
            · -- join_room
              split
              · exact h
              · split
                · split
                  · exact h
                  · split
                    · exact h
                    · cases hu : alookup st.conns cid with
                      | none => exact h
                      | some u =>
                          dsimp only
                          apply MemInv_joinRoom
                          exact MemInv_set_roomNames st cid u _ _ h hu
                · exact h
            · split
              · exact MemInv_joinRoom st cid "global" now rL rJ h
              · exact h

theorem MemInv_handleConnect (st : ServerState) (cid anon : String)
    (now : Int) (rL rJ : String) (h : MemInv st)
    (hfresh : alookup st.conns cid = none) :
    MemInv (handleConnect st cid anon now rL rJ).1 := by
  unfold handleConnect
  dsimp only
  apply MemInv_joinRoom
  exact MemInv_fresh_conn st cid ⟨cid, anon, "global", []⟩ h hfresh

theorem sweepState_rooms_keys (st : ServerState) (now : Int) :
    (sweepState st now).rooms.map Prod.fst = st.rooms.map Prod.fst := by
  simp [sweepState, List.map_map, Function.comp]

theorem MemInv_sweepState (st : ServerState) (now : Int) (h : MemInv st) :
    MemInv (sweepState st now) := by
  constructor
  · rw [sweepState_rooms_keys]
    exact h.1
  · intro rid room2 h2
    rw [sweepState_alookup] at h2
    cases hrm : alookup st.rooms rid with
    | none =>
        rw [hrm] at h2
        simp at h2
    | some room =>
        rw [hrm] at h2
        simp only [Option.map_some'] at h2
        obtain rfl := (Option.some.inj h2).symm
        obtain ⟨hid0, hnd0, hall0⟩ := h.2 rid room hrm
        exact ⟨hid0, hnd0, hall0⟩

theorem MemInv_handleClose (st : ServerState) (cid : String) (h : MemInv st) :
    MemInv (handleClose st cid).1 := by
  unfold handleClose
  cases hu : alookup st.conns cid with
  | none => exact h
  | some u =>
      dsimp only
      have hkeys1 : (((closeRooms st.conns cid st.rooms).1).map Prod.fst).Nodup := by
        rw [closeRooms_map_fst]
        exact h.1
      have hres : ∀ rid room2,
          alookup (closeRooms st.conns cid st.rooms).1 rid = some room2 →
          room2.id = rid ∧ room2.members.Nodup ∧
          ∀ c ∈ room2.members, c ≠ cid ∧
            ∃ u3, alookup st.conns c = some u3 ∧ u3.currentRoom = rid := by
        intro rid room2 h2
        rw [closeRooms_alookup] at h2
        cases hrm : alookup st.rooms rid with
        | none =>
            rw [hrm] at h2
            simp at h2
        | some room =>
            rw [hrm] at h2
            simp only [Option.map_some'] at h2
            obtain ⟨hid0, hnd0, hall0⟩ := h.2 rid room hrm
            by_cases hcm : cid ∈ room.members
            · rw [if_pos hcm] at h2
              obtain rfl := (Option.some.inj h2).symm
              refine ⟨hid0, hnd0.erase cid, ?_⟩
              intro c hc
              have hme := (List.Nodup.mem_erase_iff hnd0).mp hc
              exact ⟨hme.1, hall0 c hme.2⟩
            · rw [if_neg hcm] at h2
              obtain rfl := (Option.some.inj h2).symm
              refine ⟨hid0, hnd0, ?_⟩
              intro c hc
              exact ⟨fun hh => hcm (hh ▸ hc), hall0 c hc⟩
      have hfin : ∀ (rooms2 : List (String × Room)),
          (∀ rid room2, alookup rooms2 rid = some room2 →
            room2.id = rid ∧ room2.members.Nodup ∧
            ∀ c ∈ room2.members, c ≠ cid ∧
              ∃ u3, alookup st.conns c = some u3 ∧ u3.currentRoom = rid) →
          (rooms2.map Prod.fst).Nodup →
          MemInv ⟨aerase st.conns cid, rooms2, aerase st.rateLimits u.id⟩ := by
        intro rooms2 hr2 hk2
        constructor
        · exact hk2
        · intro rid room2 h2
          obtain ⟨hid2, hnd2, hall2⟩ := hr2 rid room2 h2
          refine ⟨hid2, hnd2, ?_⟩
          intro c hc
          obtain ⟨hcne, u3, hu3, hc3⟩ := hall2 c hc
          refine ⟨u3, ?_, hc3⟩
          rw [alookup_aerase_ne _ _ _ hcne]
          exact hu3
      cases hcur : alookup (closeRooms st.conns cid st.rooms).1 u.currentRoom with
      | none => exact hfin _ hres hkeys1
      | some r =>
          dsimp only
          split
          · apply hfin
            · intro rid room2 h2
              by_cases he : rid = u.currentRoom
              · subst he
                rw [alookup_aerase_self _ _ hkeys1] at h2
                simp at h2
              · rw [alookup_aerase_ne _ _ _ he] at h2
                exact hres rid room2 h2
            · exact aerase_map_fst_nodup _ _ hkeys1
          · exact hfin _ hres hkeys1

theorem MemInv_step (st st2 : ServerState) (hs : Step st st2)
    (h : MemInv st) : MemInv st2 := by
  cases hs with
  | connect cid anon now rL rJ hfresh =>
      exact MemInv_handleConnect st cid anon now rL rJ h hfresh
  | frame cid inb now rM rL rJ nrid nrkey hc =>
      exact MemInv_handleFrame st cid inb now rM rL rJ nrid nrkey h
  | close cid hc => exact MemInv_handleClose st cid h
  | sweep now => exact MemInv_sweepState st now h

theorem MemInv_reachable (st : ServerState) (h : Reachable st) : MemInv st := by
  induction h with
  | init => exact MemInv_init
  | step st st2 hr hs ih => exact MemInv_step st st2 hs ih

theorem handleClose_not_mem (st : ServerState) (cid : String) (h : MemInv st) :
    ∀ rid room, alookup (handleClose st cid).1.rooms rid = some room →
      cid ∉ room.members := by
  unfold handleClose
  cases hu : alookup st.conns cid with
  | none =>
      intro rid room hr hm
      obtain ⟨u3, hu3, _⟩ := (h.2 rid room hr).2.2 cid hm
      rw [hu] at hu3
      simp at hu3
  | some u =>
      dsimp only
      have hkeys1 : (((closeRooms st.conns cid st.rooms).1).map Prod.fst).Nodup := by
        rw [closeRooms_map_fst]
        exact h.1
      have hres1 : ∀ rid room2,
          alookup (closeRooms st.conns cid st.rooms).1 rid = some room2 →
            cid ∉ room2.members := by
        intro rid room2 h2
        rw [closeRooms_alookup] at h2
        cases hrm : alookup st.rooms rid with
        | none =>
            rw [hrm] at h2
            simp at h2
        | some room =>
            rw [hrm] at h2
            simp only [Option.map_some'] at h2
            obtain ⟨_, hnd0, hall0⟩ := h.2 rid room hrm
            by_cases hcm : cid ∈ room.members
            · rw [if_pos hcm] at h2
              obtain rfl := (Option.some.inj h2).symm
              intro hc
              exact ((List.Nodup.mem_erase_iff hnd0).mp hc).1 rfl
            · rw [if_neg hcm] at h2
              obtain rfl := (Option.some.inj h2).symm
              exact hcm
      cases hcur : alookup (closeRooms st.conns cid st.rooms).1 u.currentRoom with
      | none => exact fun rid room hr => hres1 rid room hr
      | some r =>
          dsimp only
          split
          · intro rid room hr
            by_cases he : rid = u.currentRoom
            · subst he
              rw [alookup_aerase_self _ _ hkeys1] at hr
              simp at hr
            · rw [alookup_aerase_ne _ _ _ he] at hr
              exact hres1 rid room hr
          · exact fun rid room hr => hres1 rid room hr

/-- C9: at every reachable state, every open connection is a member of
at most one room, namely the room recorded as its currentRoom when that
room exists; a disconnect leaves the connection in no member set of the
resulting registry; and after any join the connection is in no member
set other than the joined room (the join removed it from its previous
room). -/
theorem c9_membership_invariant (st : ServerState) (hreach : Reachable st) :
    (∀ cid rid1 rid2 room1 room2,
       alookup st.rooms rid1 = some room1 →
       alookup st.rooms rid2 = some room2 →
       cid ∈ room1.members → cid ∈ room2.members → rid1 = rid2) ∧
    (∀ cid rid room, alookup st.rooms rid = some room →
       cid ∈ room.members →
       ∃ u, alookup st.conns cid = some u ∧ u.currentRoom = rid) ∧
    (∀ cid rid room, alookup (handleClose st cid).1.rooms rid = some room →
       cid ∉ room.members) ∧
    (∀ (cid rid : String) (now : Int) (rL rJ : String) (u : User),
       alookup st.conns cid = some u →
       ∀ rid2 room2, rid2 ≠ rid →
         alookup (joinRoom st cid rid now rL rJ).1.rooms rid2 = some room2 →
         cid ∉ room2.members) := by
  have hinv := MemInv_reachable st hreach
  refine ⟨?_, ?_, ?_, ?_⟩
  · intro cid rid1 rid2 room1 room2 h1 h2 hm1 hm2
    obtain ⟨u1, hu1, hc1⟩ := (hinv.2 rid1 room1 h1).2.2 cid hm1
    obtain ⟨u2, hu2, hc2⟩ := (hinv.2 rid2 room2 h2).2.2 cid hm2
    rw [hu1] at hu2
    obtain rfl := Option.some.inj hu2
    rw [← hc1, ← hc2]
  · intro cid rid room hr hm
    exact (hinv.2 rid room hr).2.2 cid hm
  · intro cid rid room hr
    exact handleClose_not_mem st cid hinv rid room hr
  · intro cid rid now rL rJ u hu rid2 room2 hne hr2 hmem
    have hinv2 : MemInv (joinRoom st cid rid now rL rJ).1 :=
      MemInv_joinRoom st cid rid now rL rJ hinv
    obtain ⟨u3, hu3, hc3⟩ := (hinv2.2 rid2 room2 hr2).2.2 cid hmem
    obtain ⟨u2, hu2, hc2⟩ := joinRoom_conns_currentRoom st cid rid now rL rJ u hu
    rw [hu3] at hu2
    obtain rfl := Option.some.inj hu2
    exact hne (hc3.symm.trans hc2)

/-- Witness for c9_membership_invariant: the state reached by one fresh
connection joining the global room at boot. -/
theorem c9_witness :
    alookup ((handleConnect initState "u1" "Anon#1" 0 "ra" "rb").1).rooms
        "global" =
      some ⟨"global", none, false, ["u1"],
        [sysMsgOf "Anon#1 joined the room" 0 "rb"]⟩ ∧
    (∃ u : User,
       alookup ((handleConnect initState "u1" "Anon#1" 0 "ra" "rb").1).conns
         "u1" = some u ∧ u.currentRoom = "global") := by
  have hreach : Reachable (handleConnect initState "u1" "Anon#1" 0 "ra" "rb").1 :=
    Reachable.step _ _ Reachable.init
      (Step.connect initState "u1" "Anon#1" 0 "ra" "rb" rfl)
  have h := c9_membership_invariant _ hreach
  refine ⟨rfl, ?_⟩
  exact h.2.1 "u1" "global"
    ⟨"global", none, false, ["u1"], [sysMsgOf "Anon#1 joined the room" 0 "rb"]⟩
    rfl (by decide)
